import Mathlib

/-!
# Verification of the discord.js-minesweeper board generator

Shallow embedding of `src/Minesweeper.ts`.  Cells are the raw strings the
TypeScript code stores in `this.matrix` (e.g. `"|| :zero: ||"`).  The
process-wide random source (`Math.random()`) is embedded as a stream
`σ : Nat → Nat` together with a global draw counter: the JS expression
`Math.floor(Math.random() * n)` — a draw uniform on `[0, n)` for `n ≥ 1`
and `0` for `n = 0` — becomes `draw σ k n`, the `k`-th draw reduced into
`[0, n)`.  The two unbounded recursions of the source (the rejection
sampling loop of `plantMines` and the recursive flood fill of
`revealSurroundings`) are embedded with an explicit fuel parameter, with
`none` meaning the budget ran out; adequacy theorems below show the fuel
actually used always suffices for the flood fill.
-/

namespace Minesweeper

/-- JS `str.includes(needle)` on character lists: does `n` occur as a
contiguous run inside `hay`? -/
def infixOf : List Char → List Char → Bool
  | n, [] => n.isPrefixOf []
  | n, c :: t => n.isPrefixOf (c :: t) || infixOf n t

/-- `this.matrix[x][y].includes("||")`, the `isSpoiler` test of
`revealSurroundings`. -/
def hasBars (s : String) : Bool := infixOf ['|', '|'] s.data

/-- JS `cell.slice(2, -2)`: the characters of `cell` from index 2 up to
(excluding) index `length - 2`; empty when `length < 4`. -/
def slice2 (s : String) : String := ⟨(s.data.drop 2).take (s.data.length - 4)⟩

/-- `Minesweeper#spoilerize`:
`this.spaces ? \x7c\x7c :str: \x7c\x7c : ...` — the spoiler-wrapping of a
symbol name, with or without inner spaces. -/
def spoilerize (spaces : Bool) (str : String) : String :=
  if spaces then "|| :" ++ str ++ ": ||" else "||:" ++ str ++ ":||"

/-- The nine number symbol names of the constructor. -/
def numberNames : List String :=
  ["zero", "one", "two", "three", "four", "five", "six", "seven", "eight"]

/-- `CellTypes` of the source: the mine string and the number strings. -/
structure CellTypes where
  mine : String
  numbers : List String
  deriving DecidableEq

/-- `this.types` as computed by the constructor. -/
def mkTypes (spaces : Bool) (emote : String) : CellTypes :=
  ⟨spoilerize spaces emote, numberNames.map (spoilerize spaces)⟩

/-- `this.matrix`: a list of rows of cell strings. -/
abbrev Matrix := List (List String)

/-- Read `m[x][y]`; out-of-range reads give `""` (the code only reads
in bounds wherever the value matters, except the one `undefined` access
in `revealFirst`, which is modelled explicitly there). -/
def getCell (m : Matrix) (x y : Nat) : String := (m.getD x []).getD y ""

/-- Write `m[x][y] = v`; out-of-range writes are dropped. -/
def setCell (m : Matrix) (x y : Nat) (v : String) : Matrix :=
  m.set x ((m.getD x []).set y v)

/-- `returnType` option values. -/
inductive RetType
  | emoji
  | code
  | matrixT
  deriving DecidableEq

/-- The fields of a `Minesweeper` instance. -/
structure MS where
  rows : Nat
  columns : Nat
  mines : Nat
  emote : String
  spaces : Bool
  revealFirstCell : Bool
  zeroFirstCell : Bool
  returnType : RetType
  safeCells : List (Nat × Nat)
  types : CellTypes
  matrix : Matrix
  deriving DecidableEq

/-- `MinesweeperOpts`: every field optional (JS `undefined` = `none`). -/
structure Opts where
  rows : Option Nat := none
  columns : Option Nat := none
  mines : Option Nat := none
  emote : Option String := none
  revealFirstCell : Option Bool := none
  zeroFirstCell : Option Bool := none
  spaces : Option Bool := none
  returnType : Option RetType := none

/-- JS `(opts && opts.f) || d` for a numeric option: `undefined` *or the
falsy value `0`* falls back to the default. -/
def orDefaultNat (v : Option Nat) (d : Nat) : Nat :=
  match v with
  | none => d
  | some n => if n = 0 then d else n

/-- JS `(opts && opts.emote) || d`: `undefined` or the falsy `""` falls
back to the default. -/
def orDefaultStr (v : Option String) (d : String) : String :=
  match v with
  | none => d
  | some s => if s = "" then d else s

/-- JS `opts && opts.f !== undefined ? opts.f : d` (no falsy coercion). -/
def orDefaultBool (v : Option Bool) (d : Bool) : Bool := v.getD d

/-- The constructor of the `Minesweeper` class. -/
def construct (opts : Opts) : MS :=
  let spaces := orDefaultBool opts.spaces true
  let emote := orDefaultStr opts.emote "boom"
  { rows := orDefaultNat opts.rows 9
    columns := orDefaultNat opts.columns 9
    mines := orDefaultNat opts.mines 10
    emote := emote
    spaces := spaces
    revealFirstCell := orDefaultBool opts.revealFirstCell false
    zeroFirstCell := orDefaultBool opts.zeroFirstCell true
    returnType := (opts.returnType).getD RetType.emoji
    safeCells := []
    types := mkTypes spaces emote
    matrix := [] }

/-- `generateEmptyMatrix`: pushes `this.rows` fresh rows of
`this.types.numbers[0]` onto the *existing* `this.matrix`. -/
def generateEmptyMatrix (st : MS) : MS :=
  { st with
    matrix := st.matrix ++
      List.replicate st.rows (List.replicate st.columns (st.types.numbers.getD 0 "")) }

/-- `Math.floor(Math.random() * n)` for the `k`-th call of the run. -/
def draw (σ : Nat → Nat) (k n : Nat) : Nat := if n = 0 then 0 else σ k % n

/-- The loop of `plantMines`: `remaining` mines still to place (the source
counts up with `i--` on collision, which is the same loop); two random
draws per iteration, collisions redraw without decrementing. `none` when
the fuel budget is exhausted before all mines are placed. -/
def plantLoop (σ : Nat → Nat) (rows cols : Nat) (mine : String) :
    Nat → Nat → Nat → Matrix → Option (Matrix × Nat)
  | _, k, 0, m => some (m, k)
  | 0, _, _ + 1, _ => none
  | f + 1, k, r + 1, m =>
    if getCell m (draw σ k rows) (draw σ (k + 1) cols) = mine then
      plantLoop σ rows cols mine f (k + 2) (r + 1) m
    else
      plantLoop σ rows cols mine f (k + 2) r
        (setCell m (draw σ k rows) (draw σ (k + 1) cols) mine)

/-- `getNumberOfMines(x, y)`: the pure cell value; reads the matrix `m`
passed in (the pre-`populate` matrix).  The four `hasTop`/`hasBottom`/
`hasLeft`/`hasRight` guards are inlined (`0 < x` is `x > 0`,
`x < rows - 1` etc.); the eight `+(guard && cell === mine)` addends
become `if … then 1 else 0`. -/
def getNumberOfMines (types : CellTypes) (rows cols : Nat) (m : Matrix) (x y : Nat) :
    String :=
  if getCell m x y = types.mine then types.mine
  else
    let counter :=
      (if 0 < x ∧ 0 < y ∧ getCell m (x - 1) (y - 1) = types.mine then 1 else 0) +
      (if 0 < x ∧ getCell m (x - 1) y = types.mine then 1 else 0) +
      (if 0 < x ∧ y < cols - 1 ∧ getCell m (x - 1) (y + 1) = types.mine then 1 else 0) +
      (if 0 < y ∧ getCell m x (y - 1) = types.mine then 1 else 0) +
      (if y < cols - 1 ∧ getCell m x (y + 1) = types.mine then 1 else 0) +
      (if x < rows - 1 ∧ 0 < y ∧ getCell m (x + 1) (y - 1) = types.mine then 1 else 0) +
      (if x < rows - 1 ∧ getCell m (x + 1) y = types.mine then 1 else 0) +
      (if x < rows - 1 ∧ y < cols - 1 ∧ getCell m (x + 1) (y + 1) = types.mine then 1 else 0)
    types.numbers.getD counter ""

/-- The matrix built by `populate`: `this.matrix.map((row, x) =>
row.map((col, y) => this.getNumberOfMines(x, y)))` — every callback reads
the old matrix, reassigned only after the map completes.  Rebuilt here by
index ranges, which produces the same shape and the same entries. -/
def populateMatrix (types : CellTypes) (rows cols : Nat) (m : Matrix) : Matrix :=
  (List.range m.length).map (fun x =>
    (List.range ((m.getD x []).length)).map (fun y => getNumberOfMines types rows cols m x y))

/-- The safe-cell coordinates pushed by `getNumberOfMines` during
`populate`, in row-major push order. -/
def populateSafe (types : CellTypes) (m : Matrix) : List (Nat × Nat) :=
  (List.range m.length).flatMap (fun x =>
    (List.range ((m.getD x []).length)).filterMap (fun y =>
      if getCell m x y = types.mine then none else some (x, y)))

/-- `populate()`: rewrites the matrix and appends to the (never cleared)
`safeCells` array. -/
def populate (st : MS) : MS :=
  { st with
    matrix := populateMatrix st.types st.rows st.columns st.matrix
    safeCells := st.safeCells ++ populateSafe st.types st.matrix }

/-- `getTextRepresentation()`. -/
def getTextRepresentation (st : MS) : String :=
  String.intercalate "\n"
    (st.matrix.map (fun r => String.intercalate (if st.spaces then " " else "") r))

/-- One cell visit of the double loop in `revealSurroundings`: if the cell
is a spoiler, record it when it is the zero string (the source pushes
before slicing, so the pre-slice value is tested) and slice it. -/
def stepAt (num0 : String) (mz : Matrix × List (Nat × Nat)) (i j : Nat) :
    Matrix × List (Nat × Nat) :=
  if hasBars (getCell mz.1 i j) then
    (setCell mz.1 i j (slice2 (getCell mz.1 i j)),
     if getCell mz.1 i j = num0 then mz.2 ++ [(i, j)] else mz.2)
  else mz

/-- The 3×3 sweep of `revealSurroundings` around `c`, clipped to
`[0, rows) × [0, cols)` (`xLower = max(0, x-1)` is the truncated `x - 1`
on `Nat`; the `min` bounds match the source for `rows, cols ≥ 1`, the
only shapes on which the source ever runs it).  Returns the updated
matrix and the `zeroCells` list in push order. -/
def revealStep (rows cols : Nat) (num0 : String) (m : Matrix) (c : Nat × Nat) :
    Matrix × List (Nat × Nat) :=
  let xL := c.1 - 1
  let yL := c.2 - 1
  let xU := min (rows - 1) (c.1 + 1)
  let yU := min (cols - 1) (c.2 + 1)
  (List.range' xL (xU + 1 - xL)).foldl
    (fun mz i => (List.range' yL (yU + 1 - yL)).foldl (fun mz2 j => stepAt num0 mz2 i j) mz)
    (m, [])

/-- The recursive part of `revealSurroundings` as a depth-first worklist:
`zeroCells.forEach((c) => this.revealSurroundings(c, true))` processes
each new seed's whole subtree before the next pending seed, i.e. newly
found seeds go to the *front* of the worklist.  One fuel unit is spent
per seed expansion; `none` when the budget runs out. -/
def revealGo (rows cols : Nat) (num0 : String) :
    Nat → Matrix → List (Nat × Nat) → Option Matrix
  | _, m, [] => some m
  | 0, _, _ :: _ => none
  | fuel + 1, m, c :: rest =>
    let p := revealStep rows cols num0 m c
    revealGo rows cols num0 fuel p.1 (p.2 ++ rest)

/-- `revealSurroundings(c, recurse)`. -/
def revealSurroundings (rows cols : Nat) (num0 : String) (fuel : Nat) (m : Matrix)
    (c : Nat × Nat) (recurse : Bool) : Option Matrix :=
  if recurse then revealGo rows cols num0 fuel m [c]
  else some (revealStep rows cols num0 m c).1

/-- The masked cells of `m` inside the `rows × cols` window: the measure
that bounds the flood-fill recursion. -/
def countBars (rows cols : Nat) (m : Matrix) : Nat :=
  ((Finset.range rows ×ˢ Finset.range cols).filter
    (fun p => hasBars (getCell m p.1 p.2))).card

/-- `revealFirst()`.  Returns the mutated state, the reported coordinate
(`(-1, -1)` when disabled) and the next draw counter; `none` models the
`TypeError` the source throws when `safeCells` is empty and
`this.safeCells[idx]` is `undefined`.  The internal flood fill receives
fuel `countBars … + 1`, which the adequacy theorem below proves is always
enough, so the `getD` fallback is dead code. -/
def revealFirst (st : MS) (σ : Nat → Nat) (k : Nat) :
    Option (MS × (Int × Int) × Nat) :=
  if st.revealFirstCell = false then some (st, (-1, -1), k)
  else
    let num0 := st.types.numbers.getD 0 ""
    let zeroCells := st.safeCells.filter (fun c => getCell st.matrix c.1 c.2 = num0)
    if st.zeroFirstCell = true ∧ zeroCells ≠ [] then
      let c := zeroCells.getD (draw σ k zeroCells.length) (0, 0)
      let m1 := setCell st.matrix c.1 c.2 (slice2 (getCell st.matrix c.1 c.2))
      let m2 := (revealGo st.rows st.columns num0
        (countBars st.rows st.columns m1 + 1) m1 [c]).getD m1
      some ({ st with matrix := m2 }, ((c.1 : Int), (c.2 : Int)), k + 1)
    else
      if st.safeCells = [] then none
      else
        let c := st.safeCells.getD (draw σ k st.safeCells.length) (0, 0)
        let m1 := setCell st.matrix c.1 c.2 (slice2 (getCell st.matrix c.1 c.2))
        some ({ st with matrix := m1 }, ((c.1 : Int), (c.2 : Int)), k + 1)

/-- The values `start()` can produce: the `null` sentinel, one of the
three board shapes, or a thrown exception (`threw`). -/
inductive StartResult
  | nullR
  | emoji (s : String)
  | code (s : String)
  | matrixT (m : Matrix)
  deriving DecidableEq

/-- `start()`: the validity gate, then the four stages in order, then the
output-shape switch.  The result is the mutated instance, what the call
produced (`Except.error ()` models the `revealFirst` throw), and the next
draw counter; `none` only when `plantMines`' rejection sampling exceeds
its fuel. -/
def start (st : MS) (σ : Nat → Nat) (k fuel : Nat) :
    Option (MS × Except Unit StartResult × Nat) :=
  if st.rows * st.columns ≤ st.mines * 2 then some (st, Except.ok .nullR, k)
  else
    let st1 := generateEmptyMatrix st
    match plantLoop σ st1.rows st1.columns st1.types.mine fuel k st1.mines st1.matrix with
    | none => none
    | some (m2, k2) =>
      let st2 := populate { st1 with matrix := m2 }
      match revealFirst st2 σ k2 with
      | none => some (st2, Except.error (), k2 + 1)
      | some (st3, _, k3) =>
        match st3.returnType with
        | .emoji => some (st3, Except.ok (.emoji (getTextRepresentation st3)), k3)
        | .code => some (st3, Except.ok (.code ("```" ++ getTextRepresentation st3 ++ "```")), k3)
        | .matrixT => some (st3, Except.ok (.matrixT st3.matrix), k3)

/-! ## Specification-side definitions -/

/-- `m` is an `R × C` grid. -/
def Shaped (R C : Nat) (m : Matrix) : Prop :=
  m.length = R ∧ ∀ r ∈ m, r.length = C

/-- The eight orthogonal/diagonal neighbor offsets. -/
def neighborOffsets : List (Int × Int) :=
  [(-1, -1), (-1, 0), (-1, 1), (0, -1), (0, 1), (1, -1), (1, 0), (1, 1)]

/-- Spec-side neighbor-mine count (§4.3 of the spec): mines among the
up-to-8 orthogonal/diagonal neighbors of `(x, y)`, a neighbor outside
`[0, R) × [0, C)` contributing 0. -/
def specMineCount (mine : String) (R C : Nat) (m : Matrix) (x y : Nat) : Nat :=
  (neighborOffsets.filter (fun d =>
    decide (0 ≤ (x : Int) + d.1 ∧ (x : Int) + d.1 < (R : Int) ∧
            0 ≤ (y : Int) + d.2 ∧ (y : Int) + d.2 < (C : Int) ∧
            getCell m ((x : Int) + d.1).toNat ((y : Int) + d.2).toNat = mine))).length

/-- `e` lies in the 3×3 square centred at `d` (Chebyshev distance ≤ 1). -/
def near (d e : Nat × Nat) : Prop :=
  d.1 ≤ e.1 + 1 ∧ e.1 ≤ d.1 + 1 ∧ d.2 ≤ e.2 + 1 ∧ e.2 ≤ d.2 + 1

/-- A chain of adjacent zero-count cells starting at the seed: the
reachability notion of the spec's flood-fill description. -/
inductive ZChain (isZero : Nat × Nat → Prop) (c0 : Nat × Nat) : Nat × Nat → Prop
  | base : ZChain isZero c0 c0
  | step (d e : Nat × Nat) : ZChain isZero c0 d → near d e → isZero e →
      ZChain isZero c0 e

/-- The cell string holds Mine content: the masked or revealed mine token. -/
def mineHolds (types : CellTypes) (s : String) : Prop :=
  s = types.mine ∨ s = slice2 types.mine

instance (types : CellTypes) : DecidablePred (mineHolds types) := fun s => by
  unfold mineHolds
  infer_instance

/-- The mine symbol name is none of the nine number names (true of the
default `"boom"`). -/
def emoteOK (emote : String) : Prop := ∀ n ∈ numberNames, emote ≠ n

/-- The index pairs of an `R × C` window. -/
def idxFinset (R C : Nat) : Finset (Nat × Nat) := Finset.range R ×ˢ Finset.range C

/-- How many cells of the `R × C` window of `m` satisfy `p`. -/
def countCells (R C : Nat) (m : Matrix) (p : String → Prop) [DecidablePred p] : Nat :=
  ((idxFinset R C).filter (fun q => p (getCell m q.1 q.2))).card

/-- A fresh generator whose resolved field values are given directly
(matrix and registry empty, symbol table derived as in the constructor). -/
def mkMS (rows cols mines : Nat) (emote : String) (sp rfc zfc : Bool)
    (rt : RetType) : MS :=
  { rows := rows, columns := cols, mines := mines, emote := emote, spaces := sp,
    revealFirstCell := rfc, zeroFirstCell := zfc, returnType := rt,
    safeCells := [], types := mkTypes sp emote, matrix := [] }

/-- The all-zeros constant random stream, for concrete runs. -/
def sigma0 : Nat → Nat := fun _ => 0

/-- A concrete 2×2 mine-placed layout with one mine, used as a fixture. -/
def g6fix : Matrix :=
  [[spoilerize false "boom", spoilerize false "zero"],
   [spoilerize false "zero", spoilerize false "zero"]]

/-- The populated generator over `g6fix` with reveal-first and
force-zero-start enabled, used as a fixture. -/
def st6fix : MS :=
  { mkMS 2 2 1 "boom" false true true .emoji with
      matrix := populateMatrix (mkTypes false "boom") 2 2 g6fix,
      safeCells := populateSafe (mkTypes false "boom") g6fix }

/-- The final state of a 1×3 one-mine run with mine symbol `"boom"` on
the all-zeros stream (mine planted at (0,0)), used as a fixture. -/
def c1fixSt : MS :=
  { mkMS 1 3 1 "boom" true false true .emoji with
      matrix := [[spoilerize true "boom", spoilerize true "one",
        spoilerize true "zero"]],
      safeCells := [(0, 1), (0, 2)] }

/-- The final state of the throwing 1×1 mine-free run with mine symbol
`"zero"` (the lone cell equals the mine token, so the registry stays
empty), used as a fixture. -/
def c5fixSt : MS :=
  { mkMS 1 1 0 "zero" true true true .emoji with
      matrix := [[spoilerize true "zero"]], safeCells := [] }

/-- The index pairs the double loop of `revealSurroundings` visits, in
visit order. -/
def boxList (rows cols : Nat) (c : Nat × Nat) : List (Nat × Nat) :=
  (List.range' (c.1 - 1) (min (rows - 1) (c.1 + 1) + 1 - (c.1 - 1))).flatMap (fun i =>
    (List.range' (c.2 - 1) (min (cols - 1) (c.2 + 1) + 1 - (c.2 - 1))).map (fun j => (i, j)))

/-- Cell `e` is an in-bounds zero-count safe cell of the layout `g0`. -/
def IsZeroCell (mine : String) (R C : Nat) (g0 : Matrix) (e : Nat × Nat) : Prop :=
  e.1 < R ∧ e.2 < C ∧ getCell g0 e.1 e.2 ≠ mine ∧
  specMineCount mine R C g0 e.1 e.2 = 0

/-- Every in-window cell of `g0` is the mine token or the zero token — the
state of the matrix right after `plantMines`. -/
def LayoutCells (mine num0 : String) (R C : Nat) (g0 : Matrix) : Prop :=
  ∀ i j, i < R → j < C → getCell g0 i j = mine ∨ getCell g0 i j = num0

/-- The reveal invariant: each cell is its `populate` value, or that value
sliced once — the latter only for safe cells within one step of the zero
chain from the seed `c0`. -/
def GoodM (types : CellTypes) (R C : Nat) (g0 : Matrix) (c0 : Nat × Nat)
    (m : Matrix) : Prop :=
  Shaped R C m ∧
  ∀ i j, i < R → j < C →
    getCell m i j = getCell (populateMatrix types R C g0) i j ∨
    (getCell m i j = slice2 (getCell (populateMatrix types R C g0) i j) ∧
     getCell g0 i j ≠ types.mine ∧
     ∃ d, ZChain (IsZeroCell types.mine R C g0) c0 d ∧ near d (i, j))

/-! ## Cell access lemmas -/

theorem length_setCell (m : Matrix) (x y : Nat) (v : String) :
    (setCell m x y v).length = m.length := by
  simp [setCell]

theorem getD_set_eq_if {α : Type} (l : List α) (n : Nat) (a d : α) (i : Nat) :
    (l.set n a).getD i d = if n = i ∧ n < l.length then a else l.getD i d := by
  simp only [List.getD_eq_getElem?_getD, List.getElem?_set]
  by_cases hni : n = i
  · subst hni
    by_cases hnl : n < l.length
    · simp [hnl]
    · simp [hnl, List.getElem?_eq_none (by omega : l.length ≤ n)]
  · simp [hni]

theorem getCell_setCell (m : Matrix) (x y : Nat) (v : String) (i j : Nat) :
    getCell (setCell m x y v) i j =
      if x = i ∧ y = j ∧ x < m.length ∧ y < (m.getD x []).length then v
      else getCell m i j := by
  unfold getCell setCell
  rw [getD_set_eq_if]
  by_cases hx : x = i ∧ x < m.length
  · obtain ⟨hxi, hxl⟩ := hx
    subst hxi
    rw [if_pos ⟨rfl, hxl⟩, getD_set_eq_if]
    by_cases hy : y = j ∧ y < (m.getD x []).length
    · obtain ⟨hyj, hyl⟩ := hy
      subst hyj
      rw [if_pos ⟨rfl, hyl⟩, if_pos ⟨rfl, rfl, hxl, hyl⟩]
    · rw [if_neg hy, if_neg (by tauto)]
  · rw [if_neg hx, if_neg (by tauto)]

theorem rowlen_setCell (m : Matrix) (x y : Nat) (v : String) (i : Nat) :
    ((setCell m x y v).getD i []).length = ((m).getD i []).length := by
  unfold setCell
  rw [getD_set_eq_if]
  by_cases hx : x = i ∧ x < m.length
  · obtain ⟨hxi, hxl⟩ := hx
    subst hxi
    rw [if_pos ⟨rfl, hxl⟩, List.length_set]
  · rw [if_neg hx]

theorem Shaped.rowlen {R C : Nat} {m : Matrix} (h : Shaped R C m) {i : Nat}
    (hi : i < R) : (m.getD i []).length = C := by
  obtain ⟨hlen, hrows⟩ := h
  have hil : i < m.length := by omega
  rw [List.getD_eq_getElem _ _ hil]
  exact hrows _ (List.getElem_mem hil)

theorem Shaped.setCell {R C : Nat} {m : Matrix} (h : Shaped R C m) (x y : Nat)
    (v : String) : Shaped R C (Minesweeper.setCell m x y v) := by
  obtain ⟨hlen, hrows⟩ := h
  refine ⟨by simp [Minesweeper.setCell, hlen], ?_⟩
  intro r hr
  unfold Minesweeper.setCell at hr
  rcases Nat.lt_or_ge x m.length with hx | hx
  · rcases List.mem_or_eq_of_mem_set hr with h' | h'
    · exact hrows _ h'
    · subst h'
      rw [List.length_set, List.getD_eq_getElem _ _ hx]
      exact hrows _ (List.getElem_mem hx)
  · rw [List.set_eq_of_length_le hx] at hr
    exact hrows _ hr

/-! ## String token lemmas -/

theorem data_spoilerize_true (s : String) :
    (spoilerize true s).data = '|' :: '|' :: ' ' :: ':' :: (s.data ++ [':', ' ', '|', '|']) := by
  show (("|| :" ++ s) ++ ": ||").data = _
  rw [String.data_append, String.data_append]
  simp

theorem data_spoilerize_false (s : String) :
    (spoilerize false s).data = '|' :: '|' :: ':' :: (s.data ++ [':', '|', '|']) := by
  show (("||:" ++ s) ++ ":||").data = _
  rw [String.data_append, String.data_append]
  simp

theorem take_append_of_length_add (l r : List Char) (k : Nat) :
    (l ++ r).take (l.length + k) = l ++ r.take k := by
  induction l with
  | nil => simp
  | cons a t ih =>
    rw [show (a :: t).length + k = (t.length + k) + 1 from by simp; omega]
    simp [ih]

theorem slice2_spoilerize_true (s : String) :
    slice2 (spoilerize true s) = " :" ++ s ++ ": " := by
  apply String.ext
  show ((spoilerize true s).data.drop 2).take ((spoilerize true s).data.length - 4) = _
  rw [String.data_append, String.data_append, data_spoilerize_true]
  rw [show (" :" : String).data = [' ', ':'] from rfl, show (": " : String).data = [':', ' '] from rfl]
  rw [show ('|' :: '|' :: ' ' :: ':' :: (s.data ++ [':', ' ', '|', '|'])).length - 4
      = (s.data.length + 2) + 2 from by simp]
  rw [show List.drop 2 ('|' :: '|' :: ' ' :: ':' :: (s.data ++ [':', ' ', '|', '|']))
      = ' ' :: ':' :: (s.data ++ [':', ' ', '|', '|']) from rfl]
  rw [show List.take ((s.data.length + 2) + 2) (' ' :: ':' :: (s.data ++ [':', ' ', '|', '|']))
      = ' ' :: ':' :: List.take (s.data.length + 2) (s.data ++ [':', ' ', '|', '|']) from rfl]
  rw [take_append_of_length_add]
  simp

theorem slice2_spoilerize_false (s : String) :
    slice2 (spoilerize false s) = ":" ++ s ++ ":" := by
  apply String.ext
  show ((spoilerize false s).data.drop 2).take ((spoilerize false s).data.length - 4) = _
  rw [String.data_append, String.data_append, data_spoilerize_false]
  rw [show (":" : String).data = [':'] from rfl]
  rw [show ('|' :: '|' :: ':' :: (s.data ++ [':', '|', '|'])).length - 4
      = (s.data.length + 1) + 1 from by simp]
  rw [show List.drop 2 ('|' :: '|' :: ':' :: (s.data ++ [':', '|', '|']))
      = ':' :: (s.data ++ [':', '|', '|']) from rfl]
  rw [show List.take ((s.data.length + 1) + 1) (':' :: (s.data ++ [':', '|', '|']))
      = ':' :: List.take (s.data.length + 1) (s.data ++ [':', '|', '|']) from rfl]
  rw [take_append_of_length_add]
  simp

theorem hasBars_spoilerize (sp : Bool) (s : String) :
    hasBars (spoilerize sp s) = true := by
  cases sp
  · rw [hasBars, data_spoilerize_false]
    simp [infixOf, List.isPrefixOf]
  · rw [hasBars, data_spoilerize_true]
    simp [infixOf, List.isPrefixOf]

theorem spoilerize_injective (sp : Bool) {s t : String}
    (h : spoilerize sp s = spoilerize sp t) : s = t := by
  have hd := congrArg String.data h
  cases sp
  · rw [data_spoilerize_false, data_spoilerize_false] at hd
    simp only [List.cons.injEq, true_and] at hd
    exact String.ext (List.append_cancel_right hd)
  · rw [data_spoilerize_true, data_spoilerize_true] at hd
    simp only [List.cons.injEq, true_and] at hd
    exact String.ext (List.append_cancel_right hd)

theorem spoilerize_ne_slice2_spoilerize (sp sp2 : Bool) (s t : String) :
    spoilerize sp s ≠ slice2 (spoilerize sp2 t) := by
  intro h
  have hd := congrArg (fun u => u.data.head?) h
  cases sp <;> cases sp2 <;>
    simp [data_spoilerize_true, data_spoilerize_false, slice2_spoilerize_true,
      slice2_spoilerize_false, String.data_append,
      show (" :" : String).data = [' ', ':'] from rfl,
      show (":" : String).data = [':'] from rfl] at hd

theorem slice2_spoilerize_injective (sp : Bool) {s t : String}
    (h : slice2 (spoilerize sp s) = slice2 (spoilerize sp t)) : s = t := by
  cases sp
  · rw [slice2_spoilerize_false, slice2_spoilerize_false] at h
    have hd := congrArg String.data h
    simp only [String.data_append, show (":" : String).data = [':'] from rfl] at hd
    exact String.ext (List.append_cancel_left (List.append_cancel_right hd))
  · rw [slice2_spoilerize_true, slice2_spoilerize_true] at h
    have hd := congrArg String.data h
    simp only [String.data_append, show (" :" : String).data = [' ', ':'] from rfl,
      show (": " : String).data = [':', ' '] from rfl] at hd
    exact String.ext (List.append_cancel_left (List.append_cancel_right hd))

/-- `types.numbers[k]` for `k < 9` is the spoilerized `k`-th number name. -/
theorem numbers_getD (sp : Bool) (e : String) {k : Nat} (hk : k < 9) :
    (mkTypes sp e).numbers.getD k "" = spoilerize sp (numberNames.getD k "") := by
  interval_cases k <;> rfl

theorem numberNames_getD_mem {k : Nat} (hk : k < 9) :
    numberNames.getD k "" ∈ numberNames := by
  interval_cases k <;> simp [numberNames]

theorem numbers_getD_inj (sp : Bool) (e : String) {k l : Nat} (hk : k < 9) (hl : l < 9)
    (h : (mkTypes sp e).numbers.getD k "" = (mkTypes sp e).numbers.getD l "") : k = l := by
  rw [numbers_getD sp e hk, numbers_getD sp e hl] at h
  have := spoilerize_injective sp h
  revert this
  interval_cases k <;> interval_cases l <;> decide

/-- Under `emoteOK`, the mine token differs from every number token. -/
theorem mine_ne_numbers (sp : Bool) {e : String} (he : emoteOK e) {k : Nat} (hk : k < 9) :
    (mkTypes sp e).mine ≠ (mkTypes sp e).numbers.getD k "" := by
  rw [numbers_getD sp e hk]
  intro h
  exact he _ (numberNames_getD_mem hk) (spoilerize_injective sp h)

/-- A revealed number token is not a spoiler. -/
theorem noBars_slice2_numbers (sp : Bool) (e : String) {k : Nat} (hk : k < 9) :
    hasBars (slice2 ((mkTypes sp e).numbers.getD k "")) = false := by
  rw [numbers_getD sp e hk]
  cases sp <;> interval_cases k <;> decide

/-- A masked token is never equal to any revealed number token. -/
theorem spoilerize_ne_slice2_numbers (sp sp2 : Bool) (s : String) (e : String) {k : Nat}
    (hk : k < 9) : spoilerize sp s ≠ slice2 ((mkTypes sp2 e).numbers.getD k "") := by
  rw [numbers_getD sp2 e hk]
  exact spoilerize_ne_slice2_spoilerize sp sp2 s _

/-- A number token does not hold Mine content (under `emoteOK`). -/
theorem not_mineHolds_numbers (sp : Bool) {e : String} (he : emoteOK e) {k : Nat}
    (hk : k < 9) : ¬ mineHolds (mkTypes sp e) ((mkTypes sp e).numbers.getD k "") := by
  rintro (h | h)
  · exact mine_ne_numbers sp he hk h.symm
  · rw [numbers_getD sp e hk] at h
    exact spoilerize_ne_slice2_spoilerize sp sp (numberNames.getD k "") e h

/-- A revealed number token does not hold Mine content (under `emoteOK`). -/
theorem not_mineHolds_slice2_numbers (sp : Bool) {e : String} (he : emoteOK e) {k : Nat}
    (hk : k < 9) :
    ¬ mineHolds (mkTypes sp e) (slice2 ((mkTypes sp e).numbers.getD k "")) := by
  rintro (h | h)
  · exact spoilerize_ne_slice2_numbers sp sp e e hk h.symm
  · rw [numbers_getD sp e hk] at h
    exact he _ (numberNames_getD_mem hk) (slice2_spoilerize_injective sp h).symm

/-! ## Neighbor counting: `getNumberOfMines` against the spec count -/

theorem length_filter_cons {α : Type} (p : α → Bool) (a : α) (l : List α) :
    (List.filter p (a :: l)).length =
      (if p a = true then 1 else 0) + (List.filter p l).length := by
  rw [List.filter_cons]
  by_cases h : p a = true <;> simp [h] <;> omega

theorem specMineCount_le_8 (mine : String) (R C : Nat) (m : Matrix) (x y : Nat) :
    specMineCount mine R C m x y ≤ 8 :=
  (List.length_filter_le _ _).trans (by rw [neighborOffsets]; simp)

theorem ifIndicator_congr {P Q : Prop} [Decidable P] [Decidable Q] (h : P ↔ Q) :
    (if P then (1 : Nat) else 0) = (if Q then 1 else 0) :=
  if_congr h rfl rfl

/-- The eight guarded addends of `getNumberOfMines` compute exactly the
spec-side bounds-checked neighbor count. -/
theorem specMineCount_eq_sum (mine : String) (R C : Nat) (m : Matrix) (x y : Nat)
    (hx : x < R) (hy : y < C) :
    specMineCount mine R C m x y =
      (if 0 < x ∧ 0 < y ∧ getCell m (x - 1) (y - 1) = mine then 1 else 0) +
      (if 0 < x ∧ getCell m (x - 1) y = mine then 1 else 0) +
      (if 0 < x ∧ y < C - 1 ∧ getCell m (x - 1) (y + 1) = mine then 1 else 0) +
      (if 0 < y ∧ getCell m x (y - 1) = mine then 1 else 0) +
      (if y < C - 1 ∧ getCell m x (y + 1) = mine then 1 else 0) +
      (if x < R - 1 ∧ 0 < y ∧ getCell m (x + 1) (y - 1) = mine then 1 else 0) +
      (if x < R - 1 ∧ getCell m (x + 1) y = mine then 1 else 0) +
      (if x < R - 1 ∧ y < C - 1 ∧ getCell m (x + 1) (y + 1) = mine then 1 else 0) := by
  have hxm : ((x : Int) + -1).toNat = x - 1 := by omega
  have hx0 : ((x : Int) + 0).toNat = x := by omega
  have hxp : ((x : Int) + 1).toNat = x + 1 := by omega
  have hym : ((y : Int) + -1).toNat = y - 1 := by omega
  have hy0 : ((y : Int) + 0).toNat = y := by omega
  have hyp : ((y : Int) + 1).toNat = y + 1 := by omega
  have t1 : (if 0 ≤ (x : Int) + -1 ∧ (x : Int) + -1 < (R : Int) ∧
        0 ≤ (y : Int) + -1 ∧ (y : Int) + -1 < (C : Int) ∧
        getCell m ((x : Int) + -1).toNat ((y : Int) + -1).toNat = mine then (1 : Nat) else 0) =
      (if 0 < x ∧ 0 < y ∧ getCell m (x - 1) (y - 1) = mine then 1 else 0) := by
    rw [hxm, hym]
    refine ifIndicator_congr ?_
    constructor
    · rintro ⟨a, b, c, d, e⟩
      exact ⟨by omega, by omega, e⟩
    · rintro ⟨a, b, e⟩
      exact ⟨by omega, by omega, by omega, by omega, e⟩
  have t2 : (if 0 ≤ (x : Int) + -1 ∧ (x : Int) + -1 < (R : Int) ∧
        0 ≤ (y : Int) + 0 ∧ (y : Int) + 0 < (C : Int) ∧
        getCell m ((x : Int) + -1).toNat ((y : Int) + 0).toNat = mine then (1 : Nat) else 0) =
      (if 0 < x ∧ getCell m (x - 1) y = mine then 1 else 0) := by
    rw [hxm, hy0]
    refine ifIndicator_congr ?_
    constructor
    · rintro ⟨a, b, c, d, e⟩
      exact ⟨by omega, e⟩
    · rintro ⟨a, e⟩
      exact ⟨by omega, by omega, by omega, by omega, e⟩
  have t3 : (if 0 ≤ (x : Int) + -1 ∧ (x : Int) + -1 < (R : Int) ∧
        0 ≤ (y : Int) + 1 ∧ (y : Int) + 1 < (C : Int) ∧
        getCell m ((x : Int) + -1).toNat ((y : Int) + 1).toNat = mine then (1 : Nat) else 0) =
      (if 0 < x ∧ y < C - 1 ∧ getCell m (x - 1) (y + 1) = mine then 1 else 0) := by
    rw [hxm, hyp]
    refine ifIndicator_congr ?_
    constructor
    · rintro ⟨a, b, c, d, e⟩
      exact ⟨by omega, by omega, e⟩
    · rintro ⟨a, b, e⟩
      exact ⟨by omega, by omega, by omega, by omega, e⟩
  have t4 : (if 0 ≤ (x : Int) + 0 ∧ (x : Int) + 0 < (R : Int) ∧
        0 ≤ (y : Int) + -1 ∧ (y : Int) + -1 < (C : Int) ∧
        getCell m ((x : Int) + 0).toNat ((y : Int) + -1).toNat = mine then (1 : Nat) else 0) =
      (if 0 < y ∧ getCell m x (y - 1) = mine then 1 else 0) := by
    rw [hx0, hym]
    refine ifIndicator_congr ?_
    constructor
    · rintro ⟨a, b, c, d, e⟩
      exact ⟨by omega, e⟩
    · rintro ⟨a, e⟩
      exact ⟨by omega, by omega, by omega, by omega, e⟩
  have t5 : (if 0 ≤ (x : Int) + 0 ∧ (x : Int) + 0 < (R : Int) ∧
        0 ≤ (y : Int) + 1 ∧ (y : Int) + 1 < (C : Int) ∧
        getCell m ((x : Int) + 0).toNat ((y : Int) + 1).toNat = mine then (1 : Nat) else 0) =
      (if y < C - 1 ∧ getCell m x (y + 1) = mine then 1 else 0) := by
    rw [hx0, hyp]
    refine ifIndicator_congr ?_
    constructor
    · rintro ⟨a, b, c, d, e⟩
      exact ⟨by omega, e⟩
    · rintro ⟨a, e⟩
      exact ⟨by omega, by omega, by omega, by omega, e⟩
  have t6 : (if 0 ≤ (x : Int) + 1 ∧ (x : Int) + 1 < (R : Int) ∧
        0 ≤ (y : Int) + -1 ∧ (y : Int) + -1 < (C : Int) ∧
        getCell m ((x : Int) + 1).toNat ((y : Int) + -1).toNat = mine then (1 : Nat) else 0) =
      (if x < R - 1 ∧ 0 < y ∧ getCell m (x + 1) (y - 1) = mine then 1 else 0) := by
    rw [hxp, hym]
    refine ifIndicator_congr ?_
    constructor
    · rintro ⟨a, b, c, d, e⟩
      exact ⟨by omega, by omega, e⟩
    · rintro ⟨a, b, e⟩
      exact ⟨by omega, by omega, by omega, by omega, e⟩
  have t7 : (if 0 ≤ (x : Int) + 1 ∧ (x : Int) + 1 < (R : Int) ∧
        0 ≤ (y : Int) + 0 ∧ (y : Int) + 0 < (C : Int) ∧
        getCell m ((x : Int) + 1).toNat ((y : Int) + 0).toNat = mine then (1 : Nat) else 0) =
      (if x < R - 1 ∧ getCell m (x + 1) y = mine then 1 else 0) := by
    rw [hxp, hy0]
    refine ifIndicator_congr ?_
    constructor
    · rintro ⟨a, b, c, d, e⟩
      exact ⟨by omega, e⟩
    · rintro ⟨a, e⟩
      exact ⟨by omega, by omega, by omega, by omega, e⟩
  have t8 : (if 0 ≤ (x : Int) + 1 ∧ (x : Int) + 1 < (R : Int) ∧
        0 ≤ (y : Int) + 1 ∧ (y : Int) + 1 < (C : Int) ∧
        getCell m ((x : Int) + 1).toNat ((y : Int) + 1).toNat = mine then (1 : Nat) else 0) =
      (if x < R - 1 ∧ y < C - 1 ∧ getCell m (x + 1) (y + 1) = mine then 1 else 0) := by
    rw [hxp, hyp]
    refine ifIndicator_congr ?_
    constructor
    · rintro ⟨a, b, c, d, e⟩
      exact ⟨by omega, by omega, e⟩
    · rintro ⟨a, b, e⟩
      exact ⟨by omega, by omega, by omega, by omega, e⟩
  rw [specMineCount, neighborOffsets]
  rw [length_filter_cons, length_filter_cons, length_filter_cons, length_filter_cons,
    length_filter_cons, length_filter_cons, length_filter_cons, length_filter_cons]
  simp only [List.filter_nil, List.length_nil, decide_eq_true_eq]
  rw [t1, t2, t3, t4, t5, t6, t7, t8]
  omega

/-- On a non-mine cell, `getNumberOfMines` records exactly the spec-side
neighbor-mine count. -/
theorem getNumberOfMines_eq_spec (types : CellTypes) (R C : Nat) (m : Matrix)
    (x y : Nat) (hx : x < R) (hy : y < C) (hne : getCell m x y ≠ types.mine) :
    getNumberOfMines types R C m x y =
      types.numbers.getD (specMineCount types.mine R C m x y) "" := by
  rw [getNumberOfMines, if_neg hne, specMineCount_eq_sum types.mine R C m x y hx hy]

/-- On a mine cell, `getNumberOfMines` returns the mine token. -/
theorem getNumberOfMines_of_mine (types : CellTypes) (R C : Nat) (m : Matrix)
    (x y : Nat) (heq : getCell m x y = types.mine) :
    getNumberOfMines types R C m x y = types.mine := by
  rw [getNumberOfMines, if_pos heq]

/-! ## `populate` lemmas -/

theorem populateMatrix_shape {R C : Nat} {m : Matrix} (h : Shaped R C m)
    (types : CellTypes) (rows cols : Nat) :
    Shaped R C (populateMatrix types rows cols m) := by
  obtain ⟨hlen, hrows⟩ := h
  constructor
  · simp [populateMatrix, hlen]
  · intro r hr
    rw [populateMatrix] at hr
    simp only [List.mem_map, List.mem_range] at hr
    obtain ⟨x, hx, rfl⟩ := hr
    rw [List.length_map, List.length_range]
    rw [List.getD_eq_getElem _ _ hx]
    exact hrows _ (List.getElem_mem hx)

theorem getCell_populateMatrix (types : CellTypes) (rows cols : Nat) (m : Matrix)
    {x y : Nat} (hx : x < m.length) (hy : y < (m.getD x []).length) :
    getCell (populateMatrix types rows cols m) x y =
      getNumberOfMines types rows cols m x y := by
  unfold getCell populateMatrix
  have hx2 : x < ((List.range m.length).map (fun x =>
      (List.range ((m.getD x []).length)).map
        (fun y => getNumberOfMines types rows cols m x y))).length := by
    simpa using hx
  rw [List.getD_eq_getElem _ _ hx2]
  simp only [List.getElem_map, List.getElem_range]
  have hy2 : y < ((List.range ((m.getD x []).length)).map
      (fun y => getNumberOfMines types rows cols m x y)).length := by
    simpa using hy
  rw [List.getD_eq_getElem _ _ hy2]
  simp only [List.getElem_map, List.getElem_range]

theorem mem_populateSafe (types : CellTypes) (m : Matrix) (c : Nat × Nat) :
    c ∈ populateSafe types m ↔
      c.1 < m.length ∧ c.2 < (m.getD c.1 []).length ∧
      getCell m c.1 c.2 ≠ types.mine := by
  obtain ⟨x, y⟩ := c
  rw [populateSafe]
  simp only [List.mem_flatMap, List.mem_filterMap, List.mem_range]
  constructor
  · rintro ⟨a, ha, b, hb, hab⟩
    by_cases hmine : getCell m a b = types.mine
    · rw [if_pos hmine] at hab
      simp at hab
    · rw [if_neg hmine] at hab
      simp only [Option.some.injEq, Prod.mk.injEq] at hab
      obtain ⟨rfl, rfl⟩ := hab
      exact ⟨ha, hb, hmine⟩
  · rintro ⟨hx, hy, hmine⟩
    exact ⟨x, hx, y, hy, by rw [if_neg hmine]⟩

/-! ## `plantLoop` lemmas -/

theorem draw_lt {σ : Nat → Nat} {k n : Nat} (h : 0 < n) : draw σ k n < n := by
  rw [draw, if_neg (by omega)]
  exact Nat.mod_lt _ h

theorem countCells_congr {R C : Nat} {m₁ m₂ : Matrix} (p : String → Prop)
    [DecidablePred p]
    (h : ∀ i j, i < R → j < C → (p (getCell m₁ i j) ↔ p (getCell m₂ i j))) :
    countCells R C m₁ p = countCells R C m₂ p := by
  unfold countCells
  congr 1
  apply Finset.filter_congr
  intro q hq
  rw [idxFinset, Finset.mem_product, Finset.mem_range, Finset.mem_range] at hq
  exact h q.1 q.2 hq.1 hq.2

theorem countCells_setCell_flip {R C : Nat} {m : Matrix} (p : String → Prop)
    [DecidablePred p] {x y : Nat} {v : String} (hx : x < R) (hy : y < C)
    (hxm : x < m.length) (hym : y < (m.getD x []).length)
    (hold : ¬ p (getCell m x y)) (hnew : p v) :
    countCells R C (setCell m x y v) p = countCells R C m p + 1 := by
  unfold countCells
  have hset : (idxFinset R C).filter (fun q => p (getCell (setCell m x y v) q.1 q.2)) =
      insert (x, y) ((idxFinset R C).filter (fun q => p (getCell m q.1 q.2))) := by
    ext q
    simp only [Finset.mem_filter, Finset.mem_insert]
    rw [getCell_setCell]
    by_cases hq : q = (x, y)
    · subst hq
      have hcond : x = ((x, y) : Nat × Nat).1 ∧ y = ((x, y) : Nat × Nat).2 ∧
          x < m.length ∧ y < (m.getD x []).length := ⟨rfl, rfl, hxm, hym⟩
      rw [if_pos hcond]
      have hmem : ((x, y) : Nat × Nat) ∈ idxFinset R C := by
        rw [idxFinset, Finset.mem_product]
        exact ⟨Finset.mem_range.mpr hx, Finset.mem_range.mpr hy⟩
      constructor
      · intro _
        exact Or.inl rfl
      · intro _
        exact ⟨hmem, hnew⟩
    · have hne : ¬ (x = q.1 ∧ y = q.2 ∧ x < m.length ∧ y < (m.getD x []).length) := by
        rintro ⟨h1, h2, _, _⟩
        exact hq (Prod.ext h1.symm h2.symm)
      rw [if_neg hne]
      constructor
      · rintro ⟨hmem, hp⟩
        exact Or.inr ⟨hmem, hp⟩
      · rintro (h | ⟨hmem, hp⟩)
        · exact absurd h hq
        · exact ⟨hmem, hp⟩
  rw [hset, Finset.card_insert_of_not_mem]
  simp only [Finset.mem_filter, not_and]
  intro _
  exact hold

/-- What a completed `plantLoop` run guarantees: shape is preserved, the
mine count grows by exactly the number of mines to place, and every cell
is either untouched or the mine token. -/
theorem plantLoop_spec {σ : Nat → Nat} {R C : Nat} {mine : String}
    (hR : 0 < R) (hC : 0 < C) :
    ∀ fuel k r (m m' : Matrix) (k₂ : Nat), Shaped R C m →
    plantLoop σ R C mine fuel k r m = some (m', k₂) →
    Shaped R C m' ∧
    countCells R C m' (· = mine) = countCells R C m (· = mine) + r ∧
    (∀ i j, i < R → j < C →
      getCell m' i j = getCell m i j ∨ getCell m' i j = mine) := by
  intro fuel
  induction fuel with
  | zero =>
    intro k r m m' k₂ hsh h
    cases r with
    | zero =>
      simp only [plantLoop, Option.some.injEq, Prod.mk.injEq] at h
      obtain ⟨rfl, rfl⟩ := h
      exact ⟨hsh, by omega, fun i j _ _ => Or.inl rfl⟩
    | succ r => simp [plantLoop] at h
  | succ f ih =>
    intro k r m m' k₂ hsh h
    cases r with
    | zero =>
      simp only [plantLoop, Option.some.injEq, Prod.mk.injEq] at h
      obtain ⟨rfl, rfl⟩ := h
      exact ⟨hsh, by omega, fun i j _ _ => Or.inl rfl⟩
    | succ r =>
      rw [show plantLoop σ R C mine (f + 1) k (r + 1) m =
        (if getCell m (draw σ k R) (draw σ (k + 1) C) = mine then
          plantLoop σ R C mine f (k + 2) (r + 1) m
        else
          plantLoop σ R C mine f (k + 2) r
            (setCell m (draw σ k R) (draw σ (k + 1) C) mine)) from rfl] at h
      by_cases hc : getCell m (draw σ k R) (draw σ (k + 1) C) = mine
      · rw [if_pos hc] at h
        obtain ⟨hsh', hcount, hcells⟩ := ih (k + 2) (r + 1) m m' k₂ hsh h
        exact ⟨hsh', hcount, hcells⟩
      · rw [if_neg hc] at h
        have hx : draw σ k R < R := draw_lt hR
        have hy : draw σ (k + 1) C < C := draw_lt hC
        have hxm : draw σ k R < m.length := by
          rw [hsh.1]
          exact hx
        have hym : draw σ (k + 1) C < (m.getD (draw σ k R) []).length := by
          rw [hsh.rowlen hx]
          exact hy
        obtain ⟨hsh', hcount, hcells⟩ := ih (k + 2) r
          (setCell m (draw σ k R) (draw σ (k + 1) C) mine) m' k₂ (hsh.setCell _ _ _) h
        refine ⟨hsh', ?_, ?_⟩
        · rw [hcount, countCells_setCell_flip (· = mine) hx hy hxm hym hc rfl]
          omega
        · intro i j hi hj
          rcases hcells i j hi hj with h' | h'
          · rw [h', getCell_setCell]
            by_cases hij : draw σ k R = i ∧ draw σ (k + 1) C = j ∧
                draw σ k R < m.length ∧
                draw σ (k + 1) C < (m.getD (draw σ k R) []).length
            · rw [if_pos hij]
              exact Or.inr rfl
            · rw [if_neg hij]
              exact Or.inl rfl
          · exact Or.inr h'

/-! ## Flood fill: the 3×3 sweep -/

theorem foldl_flatMap_pairs {α : Type} (outer : List Nat) (inner : List Nat)
    (g : α → Nat × Nat → α) (init : α) :
    outer.foldl (fun acc i => inner.foldl (fun acc2 j => g acc2 (i, j)) acc) init =
      (outer.flatMap (fun i => inner.map (fun j => (i, j)))).foldl g init := by
  induction outer generalizing init with
  | nil => simp
  | cons a t ih =>
    rw [List.flatMap_cons, List.foldl_append, List.foldl_map, List.foldl_cons]
    exact ih _

theorem revealStep_eq_foldl (rows cols : Nat) (num0 : String) (m : Matrix)
    (c : Nat × Nat) :
    revealStep rows cols num0 m c =
      (boxList rows cols c).foldl (fun mz q => stepAt num0 mz q.1 q.2) (m, []) := by
  rw [revealStep, boxList, ← foldl_flatMap_pairs]

theorem mem_boxList {rows cols : Nat} {c q : Nat × Nat} :
    q ∈ boxList rows cols c ↔
      c.1 - 1 ≤ q.1 ∧ q.1 ≤ min (rows - 1) (c.1 + 1) ∧
      c.2 - 1 ≤ q.2 ∧ q.2 ≤ min (cols - 1) (c.2 + 1) := by
  rw [boxList]
  simp only [List.mem_flatMap, List.mem_map, List.mem_range'_1]
  constructor
  · rintro ⟨i, hi, j, hj, rfl⟩
    exact ⟨hi.1, by omega, hj.1, by omega⟩
  · rintro ⟨h1, h2, h3, h4⟩
    exact ⟨q.1, ⟨h1, by omega⟩, q.2, ⟨h3, by omega⟩, rfl⟩

theorem nodup_boxList (rows cols : Nat) (c : Nat × Nat) :
    (boxList rows cols c).Nodup := by
  rw [boxList, List.nodup_flatMap]
  constructor
  · intro i _
    exact (List.nodup_range' _ _).map (fun a b h => (Prod.mk.injEq .. |>.mp h).2)
  · refine (List.nodup_range' _ _).pairwise_of_forall_ne ?_
    intro i hi j hj hne q hqi hqj
    simp only [List.mem_map] at hqi hqj
    obtain ⟨a, _, rfl⟩ := hqi
    obtain ⟨b, _, hq⟩ := hqj
    exact hne (Prod.mk.injEq .. |>.mp hq).1.symm

/-- If a cell has a spoiler in it, it is a real in-bounds cell. -/
theorem hasBars_bounds {m : Matrix} {i j : Nat}
    (h : hasBars (getCell m i j) = true) :
    i < m.length ∧ j < (m.getD i []).length := by
  by_contra hcon
  rcases Nat.lt_or_ge i m.length with hi | hi
  · rcases Nat.lt_or_ge j (m.getD i []).length with hj | hj
    · exact hcon ⟨hi, hj⟩
    · rw [getCell, List.getD_eq_default _ _ hj] at h
      exact absurd h (by decide)
  · rw [getCell, List.getD_eq_default _ _ hi] at h
    rw [show List.getD ([] : List String) j "" = "" from by simp] at h
    exact absurd h (by decide)

/-- Pointwise description of a fold of `stepAt` along a duplicate-free
list of cells: spoilered listed cells get sliced, everything else is
untouched, and the recorded zero cells are the spoilered listed cells
that held the zero token, appended in visit order. -/
theorem foldl_stepAt_spec (num0 : String) :
    ∀ (l : List (Nat × Nat)) (m : Matrix) (zs : List (Nat × Nat)), l.Nodup →
    (∀ i j, getCell ((l.foldl (fun mz q => stepAt num0 mz q.1 q.2) (m, zs)).1) i j =
      if (i, j) ∈ l ∧ hasBars (getCell m i j) = true then slice2 (getCell m i j)
      else getCell m i j) ∧
    ((l.foldl (fun mz q => stepAt num0 mz q.1 q.2) (m, zs)).2 =
      zs ++ l.filter (fun q =>
        hasBars (getCell m q.1 q.2) && (getCell m q.1 q.2 == num0))) := by
  intro l
  induction l with
  | nil =>
    intro m zs _
    constructor
    · intro i j
      rw [if_neg (by simp)]
      rfl
    · simp
  | cons q t ih =>
    intro m zs hnd
    have hqt : q ∉ t := (List.nodup_cons.mp hnd).1
    have hndt : t.Nodup := (List.nodup_cons.mp hnd).2
    rw [List.foldl_cons]
    by_cases hbar : hasBars (getCell m q.1 q.2) = true
    · have hb : q.1 < m.length ∧ q.2 < (m.getD q.1 []).length := hasBars_bounds hbar
      have hstep : stepAt num0 (m, zs) q.1 q.2 =
          (setCell m q.1 q.2 (slice2 (getCell m q.1 q.2)),
           if getCell m q.1 q.2 = num0 then zs ++ [q] else zs) := by
        rw [stepAt, if_pos hbar]
      rw [hstep]
      have hm1q : getCell (setCell m q.1 q.2 (slice2 (getCell m q.1 q.2))) q.1 q.2 =
          slice2 (getCell m q.1 q.2) := by
        rw [getCell_setCell, if_pos ⟨rfl, rfl, hb.1, hb.2⟩]
      have hsame : ∀ p : Nat × Nat, p ≠ q →
          getCell (setCell m q.1 q.2 (slice2 (getCell m q.1 q.2))) p.1 p.2 =
            getCell m p.1 p.2 := by
        intro p hp
        rw [getCell_setCell, if_neg]
        rintro ⟨h1, h2, _, _⟩
        exact hp (Prod.ext h1.symm h2.symm)
      obtain ⟨iha, ihb⟩ := ih (setCell m q.1 q.2 (slice2 (getCell m q.1 q.2)))
        (if getCell m q.1 q.2 = num0 then zs ++ [q] else zs) hndt
      constructor
      · intro i j
        rw [iha i j]
        by_cases hij : ((i, j) : Nat × Nat) = q
        · rw [if_neg (by
            rintro ⟨hmem, _⟩
            exact hqt (hij ▸ hmem))]
          have h1 : q.1 = i := by rw [← hij]
          have h2 : q.2 = j := by rw [← hij]
          subst h1
          subst h2
          rw [hm1q, if_pos ⟨by simp, hbar⟩]
        · rw [hsame (i, j) hij]
          exact if_congr (by simp [List.mem_cons, hij]) rfl rfl
      · rw [ihb]
        have hfilter : t.filter (fun p =>
            hasBars (getCell (setCell m q.1 q.2 (slice2 (getCell m q.1 q.2))) p.1 p.2) &&
              (getCell (setCell m q.1 q.2 (slice2 (getCell m q.1 q.2))) p.1 p.2 == num0)) =
            t.filter (fun p =>
            hasBars (getCell m p.1 p.2) && (getCell m p.1 p.2 == num0)) := by
          apply List.filter_congr
          intro p hp
          rw [hsame p (fun he => hqt (he ▸ hp))]
        rw [hfilter, List.filter_cons]
        by_cases hz : getCell m q.1 q.2 = num0
        · have hbz : hasBars num0 = true := hz ▸ hbar
          rw [if_pos hz, if_pos (by simp [hz, hbz])]
          simp
        · rw [if_neg hz, if_neg (by simp [hbar, hz])]
    · have hstep : stepAt num0 (m, zs) q.1 q.2 = (m, zs) := by
        rw [stepAt, if_neg hbar]
      rw [hstep]
      obtain ⟨iha, ihb⟩ := ih m zs hndt
      constructor
      · intro i j
        rw [iha i j]
        by_cases hij : ((i, j) : Nat × Nat) = q
        · rw [if_neg, if_neg]
          · rintro ⟨_, hb'⟩
            have h1 : q.1 = i := by rw [← hij]
            have h2 : q.2 = j := by rw [← hij]
            exact hbar (by rw [h1, h2]; exact hb')
          · rintro ⟨hmem, _⟩
            exact hqt (hij ▸ hmem)
        · exact if_congr (by simp [List.mem_cons, hij]) rfl rfl
      · rw [ihb, List.filter_cons, if_neg (by simp [hbar])]

/-- `revealStep`'s matrix, pointwise: spoilered cells of the 3×3 box get
sliced, all other cells are untouched. -/
theorem revealStep_matrix (rows cols : Nat) (num0 : String) (m : Matrix) (c : Nat × Nat)
    (i j : Nat) :
    getCell (revealStep rows cols num0 m c).1 i j =
      if (i, j) ∈ boxList rows cols c ∧ hasBars (getCell m i j) = true
      then slice2 (getCell m i j) else getCell m i j := by
  rw [revealStep_eq_foldl]
  exact (foldl_stepAt_spec num0 _ m [] (nodup_boxList rows cols c)).1 i j

/-- `revealStep`'s recorded zero cells: the spoilered box cells holding
the zero token, in visit order. -/
theorem revealStep_zeros (rows cols : Nat) (num0 : String) (m : Matrix) (c : Nat × Nat) :
    (revealStep rows cols num0 m c).2 =
      (boxList rows cols c).filter (fun q =>
        hasBars (getCell m q.1 q.2) && (getCell m q.1 q.2 == num0)) := by
  rw [revealStep_eq_foldl]
  have h := (foldl_stepAt_spec num0 _ m [] (nodup_boxList rows cols c)).2
  simpa using h

theorem mem_revealStep_zeros {rows cols : Nat} {num0 : String} {m : Matrix}
    {c z : Nat × Nat} :
    z ∈ (revealStep rows cols num0 m c).2 ↔
      z ∈ boxList rows cols c ∧ hasBars (getCell m z.1 z.2) = true ∧
      getCell m z.1 z.2 = num0 := by
  rw [revealStep_zeros, List.mem_filter]
  simp [and_assoc]

theorem nodup_revealStep_zeros (rows cols : Nat) (num0 : String) (m : Matrix)
    (c : Nat × Nat) : ((revealStep rows cols num0 m c).2).Nodup := by
  rw [revealStep_zeros]
  exact (nodup_boxList rows cols c).filter _

theorem shaped_of_len {R C : Nat} {m : Matrix} (hlen : m.length = R)
    (hrow : ∀ i, i < R → (m.getD i []).length = C) : Shaped R C m := by
  refine ⟨hlen, ?_⟩
  intro r hr
  obtain ⟨i, hi, rfl⟩ := List.mem_iff_getElem.mp hr
  rw [← List.getD_eq_getElem _ _ hi]
  exact hrow i (by omega)

theorem foldl_stepAt_shape (num0 : String) :
    ∀ (l : List (Nat × Nat)) (m : Matrix) (zs : List (Nat × Nat)),
    ((l.foldl (fun mz q => stepAt num0 mz q.1 q.2) (m, zs)).1).length = m.length ∧
    (∀ i, (((l.foldl (fun mz q => stepAt num0 mz q.1 q.2) (m, zs)).1).getD i []).length =
      (m.getD i []).length) := by
  intro l
  induction l with
  | nil => exact fun m zs => ⟨rfl, fun i => rfl⟩
  | cons q t ih =>
    intro m zs
    rw [List.foldl_cons]
    by_cases hbar : hasBars (getCell m q.1 q.2) = true
    · rw [show stepAt num0 (m, zs) q.1 q.2 =
          (setCell m q.1 q.2 (slice2 (getCell m q.1 q.2)),
           if getCell m q.1 q.2 = num0 then zs ++ [q] else zs) from by
        rw [stepAt, if_pos hbar]]
      obtain ⟨ih1, ih2⟩ := ih (setCell m q.1 q.2 (slice2 (getCell m q.1 q.2)))
        (if getCell m q.1 q.2 = num0 then zs ++ [q] else zs)
      refine ⟨?_, ?_⟩
      · rw [ih1, length_setCell]
      · intro i
        rw [ih2 i, rowlen_setCell]
    · rw [show stepAt num0 (m, zs) q.1 q.2 = (m, zs) from by rw [stepAt, if_neg hbar]]
      exact ih m zs

theorem revealStep_shape {R C : Nat} {m : Matrix} (h : Shaped R C m)
    (num0 : String) (c : Nat × Nat) : Shaped R C (revealStep R C num0 m c).1 := by
  rw [revealStep_eq_foldl]
  obtain ⟨h1, h2⟩ := foldl_stepAt_shape num0 (boxList R C c) m []
  refine shaped_of_len (by rw [h1, h.1]) ?_
  intro i hi
  rw [h2 i]
  exact h.rowlen hi

theorem boxList_window {R C : Nat} (hR : 0 < R) (hC : 0 < C) {c q : Nat × Nat}
    (h : q ∈ boxList R C c) : q.1 < R ∧ q.2 < C ∧ near c q := by
  rw [mem_boxList] at h
  refine ⟨by omega, by omega, by omega, by omega, by omega, by omega⟩

/-! ## Flood fill: termination measure -/

theorem countCells_mono {R C : Nat} {m₁ m₂ : Matrix} (p : String → Prop)
    [DecidablePred p]
    (h : ∀ i j, i < R → j < C → p (getCell m₂ i j) → p (getCell m₁ i j)) :
    countCells R C m₂ p ≤ countCells R C m₁ p := by
  unfold countCells
  apply Finset.card_le_card
  intro q hq
  rw [Finset.mem_filter] at hq ⊢
  refine ⟨hq.1, ?_⟩
  have hb := hq.1
  rw [idxFinset, Finset.mem_product, Finset.mem_range, Finset.mem_range] at hb
  exact h q.1 q.2 hb.1 hb.2 hq.2

/-- If a duplicate-free batch of in-window cells flips from satisfying
`p` to not satisfying it, the count drops by at least the batch size. -/
theorem countCells_le_sub {R C : Nat} {m₁ m₂ : Matrix} (p : String → Prop)
    [DecidablePred p] (zs : List (Nat × Nat)) (hnd : zs.Nodup)
    (hmono : ∀ i j, i < R → j < C → p (getCell m₂ i j) → p (getCell m₁ i j))
    (hz : ∀ z ∈ zs, z.1 < R ∧ z.2 < C ∧ p (getCell m₁ z.1 z.2) ∧
      ¬ p (getCell m₂ z.1 z.2)) :
    countCells R C m₂ p + zs.length ≤ countCells R C m₁ p := by
  classical
  have hzsub : zs.toFinset ⊆
      (idxFinset R C).filter (fun q => p (getCell m₁ q.1 q.2)) := by
    intro z hzmem
    rw [List.mem_toFinset] at hzmem
    obtain ⟨h1, h2, h3, _⟩ := hz z hzmem
    rw [Finset.mem_filter, idxFinset, Finset.mem_product, Finset.mem_range,
      Finset.mem_range]
    exact ⟨⟨h1, h2⟩, h3⟩
  have hsub : (idxFinset R C).filter (fun q => p (getCell m₂ q.1 q.2)) ⊆
      ((idxFinset R C).filter (fun q => p (getCell m₁ q.1 q.2))) \ zs.toFinset := by
    intro q hq
    rw [Finset.mem_filter] at hq
    have hb := hq.1
    rw [idxFinset, Finset.mem_product, Finset.mem_range, Finset.mem_range] at hb
    rw [Finset.mem_sdiff, Finset.mem_filter]
    refine ⟨⟨hq.1, hmono q.1 q.2 hb.1 hb.2 hq.2⟩, ?_⟩
    rw [List.mem_toFinset]
    intro hmem
    exact (hz q hmem).2.2.2 hq.2
  have hcard := Finset.card_le_card hsub
  rw [Finset.card_sdiff hzsub, List.toFinset_card_of_nodup hnd] at hcard
  have hle := Finset.card_le_card hzsub
  rw [List.toFinset_card_of_nodup hnd] at hle
  unfold countCells
  omega

/-- The adequacy theorem for the flood-fill worklist: fuel
`countBars … + length of the worklist` always suffices, the result only
loses spoilers, and the spoiler count never grows. -/
theorem revealGo_adequate {R C : Nat} {num0 : String} (hR : 0 < R) (hC : 0 < C)
    (hnb : hasBars (slice2 num0) = false) :
    ∀ (fuel : Nat) (m : Matrix) (ws : List (Nat × Nat)),
    countCells R C m (fun s => hasBars s = true) + ws.length ≤ fuel →
    ∃ m', revealGo R C num0 fuel m ws = some m' ∧
      (∀ i j, i < R → j < C → hasBars (getCell m' i j) = true →
        hasBars (getCell m i j) = true) ∧
      countCells R C m' (fun s => hasBars s = true) ≤
        countCells R C m (fun s => hasBars s = true) := by
  intro fuel
  induction fuel with
  | zero =>
    intro m ws hle
    cases ws with
    | nil => exact ⟨m, rfl, fun i j _ _ h => h, le_refl _⟩
    | cons c rest => simp at hle
  | succ f ih =>
    intro m ws hle
    cases ws with
    | nil => exact ⟨m, rfl, fun i j _ _ h => h, le_refl _⟩
    | cons c rest =>
      rw [show revealGo R C num0 (f + 1) m (c :: rest) =
          revealGo R C num0 f (revealStep R C num0 m c).1
            ((revealStep R C num0 m c).2 ++ rest) from rfl]
      have hmono1 : ∀ i j, i < R → j < C →
          hasBars (getCell (revealStep R C num0 m c).1 i j) = true →
          hasBars (getCell m i j) = true := by
        intro i j _ _ hb
        rw [revealStep_matrix] at hb
        by_cases hc : ((i, j) : Nat × Nat) ∈ boxList R C c ∧
            hasBars (getCell m i j) = true
        · exact hc.2
        · rw [if_neg hc] at hb
          exact hb
      have hflip : ∀ z ∈ (revealStep R C num0 m c).2, z.1 < R ∧ z.2 < C ∧
          hasBars (getCell m z.1 z.2) = true ∧
          ¬ hasBars (getCell (revealStep R C num0 m c).1 z.1 z.2) = true := by
        intro z hz
        obtain ⟨hbox, hbar, hz0⟩ := mem_revealStep_zeros.mp hz
        obtain ⟨h1, h2, _⟩ := boxList_window hR hC hbox
        refine ⟨h1, h2, hbar, ?_⟩
        rw [revealStep_matrix, if_pos ⟨by
          obtain ⟨z1, z2⟩ := z
          exact hbox, hbar⟩]
        rw [hz0, hnb]
        simp
      have hdrop := countCells_le_sub (fun s => hasBars s = true)
        (revealStep R C num0 m c).2 (nodup_revealStep_zeros R C num0 m c)
        hmono1 hflip
      obtain ⟨m', heq, hmono2, hcount2⟩ := ih (revealStep R C num0 m c).1
        ((revealStep R C num0 m c).2 ++ rest) (by
          rw [List.length_append]
          simp only [List.length_cons] at hle
          omega)
      refine ⟨m', heq, ?_, ?_⟩
      · intro i j hi hj hb
        exact hmono1 i j hi hj (hmono2 i j hi hj hb)
      · calc countCells R C m' (fun s => hasBars s = true) ≤ _ := hcount2
          _ ≤ _ := by omega

/-! ## The populated board -/

theorem pop_cell_mine {sp : Bool} {emote : String} {R C : Nat} {g0 : Matrix}
    (hsh : Shaped R C g0) {i j : Nat} (hi : i < R) (hj : j < C)
    (hm : getCell g0 i j = (mkTypes sp emote).mine) :
    getCell (populateMatrix (mkTypes sp emote) R C g0) i j =
      (mkTypes sp emote).mine := by
  rw [getCell_populateMatrix _ _ _ _ (by rw [hsh.1]; exact hi)
    (by rw [hsh.rowlen hi]; exact hj)]
  exact getNumberOfMines_of_mine _ _ _ _ _ _ hm

theorem pop_cell_safe {sp : Bool} {emote : String} {R C : Nat} {g0 : Matrix}
    (hsh : Shaped R C g0) {i j : Nat} (hi : i < R) (hj : j < C)
    (hm : getCell g0 i j ≠ (mkTypes sp emote).mine) :
    getCell (populateMatrix (mkTypes sp emote) R C g0) i j =
      (mkTypes sp emote).numbers.getD
        (specMineCount (mkTypes sp emote).mine R C g0 i j) "" := by
  rw [getCell_populateMatrix _ _ _ _ (by rw [hsh.1]; exact hi)
    (by rw [hsh.rowlen hi]; exact hj)]
  exact getNumberOfMines_eq_spec _ _ _ _ _ _ hi hj hm

/-- A zero-count cell has no in-bounds mine among its 8 neighbors. -/
theorem zero_no_mine_neighbors {mine : String} {R C : Nat} {g0 : Matrix}
    {i j : Nat} (hi : i < R) (hj : j < C)
    (h0 : specMineCount mine R C g0 i j = 0) :
    ∀ d : Nat × Nat, d.1 < R → d.2 < C → near (i, j) d → d ≠ (i, j) →
    getCell g0 d.1 d.2 ≠ mine := by
  intro d hd1 hd2 hnear hne hmine
  rw [specMineCount, List.length_eq_zero, List.filter_eq_nil_iff] at h0
  obtain ⟨hn1, hn2, hn3, hn4⟩ := hnear
  have hdx : (d.1 : Int) - i = -1 ∨ (d.1 : Int) - i = 0 ∨ (d.1 : Int) - i = 1 := by
    simp only [near] at hn1 hn2 hn3 hn4
    omega
  have hdy : (d.2 : Int) - j = -1 ∨ (d.2 : Int) - j = 0 ∨ (d.2 : Int) - j = 1 := by
    omega
  have hne' : ¬ ((d.1 : Int) - i = 0 ∧ (d.2 : Int) - j = 0) := by
    rintro ⟨ha, hb⟩
    apply hne
    have : d.1 = i := by omega
    have h2 : d.2 = j := by omega
    exact Prod.ext this h2
  have hmem : (((d.1 : Int) - i, (d.2 : Int) - j) : Int × Int) ∈ neighborOffsets := by
    rw [neighborOffsets]
    rcases hdx with h | h | h <;> rcases hdy with h2 | h2 | h2 <;>
      simp [h, h2, Prod.ext_iff] at hne' ⊢
  apply h0 _ hmem
  rw [decide_eq_true_eq]
  refine ⟨by omega, by omega, by omega, by omega, ?_⟩
  have e1 : ((i : Int) + ((d.1 : Int) - i)).toNat = d.1 := by omega
  have e2 : ((j : Int) + ((d.2 : Int) - j)).toNat = d.2 := by omega
  rw [e1, e2]
  exact hmine

/-- Within bounds, the populate value is the zero token exactly on the
zero-count safe cells. -/
theorem pop_eq_num0_iff {sp : Bool} {emote : String} {R C : Nat} {g0 : Matrix}
    (hsh : Shaped R C g0) (he : emoteOK emote) {i j : Nat} (hi : i < R)
    (hj : j < C) :
    getCell (populateMatrix (mkTypes sp emote) R C g0) i j =
      (mkTypes sp emote).numbers.getD 0 "" ↔
    (getCell g0 i j ≠ (mkTypes sp emote).mine ∧
     specMineCount (mkTypes sp emote).mine R C g0 i j = 0) := by
  constructor
  · intro h
    by_cases hm : getCell g0 i j = (mkTypes sp emote).mine
    · rw [pop_cell_mine hsh hi hj hm] at h
      exact absurd h (mine_ne_numbers sp he (by omega))
    · rw [pop_cell_safe hsh hi hj hm] at h
      exact ⟨hm, numbers_getD_inj sp emote
        (by have := specMineCount_le_8 (mkTypes sp emote).mine R C g0 i j; omega)
        (by omega) h⟩
  · rintro ⟨hm, h0⟩
    rw [pop_cell_safe hsh hi hj hm, h0]

/-- Populate values are spoilers. -/
theorem pop_hasBars {sp : Bool} {emote : String} {R C : Nat} {g0 : Matrix}
    (hsh : Shaped R C g0) {i j : Nat} (hi : i < R) (hj : j < C) :
    hasBars (getCell (populateMatrix (mkTypes sp emote) R C g0) i j) = true := by
  by_cases hm : getCell g0 i j = (mkTypes sp emote).mine
  · rw [pop_cell_mine hsh hi hj hm]
    exact hasBars_spoilerize sp emote
  · rw [pop_cell_safe hsh hi hj hm,
      numbers_getD sp emote (by
        have := specMineCount_le_8 (mkTypes sp emote).mine R C g0 i j
        omega)]
    exact hasBars_spoilerize sp _

/-- The sliced populate value of a safe cell has no bars. -/
theorem pop_safe_slice_noBars {sp : Bool} {emote : String} {R C : Nat} {g0 : Matrix}
    (hsh : Shaped R C g0) {i j : Nat} (hi : i < R) (hj : j < C)
    (hm : getCell g0 i j ≠ (mkTypes sp emote).mine) :
    hasBars (slice2 (getCell (populateMatrix (mkTypes sp emote) R C g0) i j)) =
      false := by
  rw [pop_cell_safe hsh hi hj hm]
  exact noBars_slice2_numbers sp emote (by
    have := specMineCount_le_8 (mkTypes sp emote).mine R C g0 i j
    omega)

/-! ## Flood fill preserves the reveal invariant -/

theorem revealGo_good {sp : Bool} {emote : String} {R C : Nat} {g0 : Matrix}
    {c0 : Nat × Nat}
    (hsh : Shaped R C g0) (hR : 0 < R) (hC : 0 < C) (he : emoteOK emote) :
    ∀ (fuel : Nat) (m : Matrix) (ws : List (Nat × Nat)) (m' : Matrix),
    GoodM (mkTypes sp emote) R C g0 c0 m →
    (∀ q ∈ ws, ZChain (IsZeroCell (mkTypes sp emote).mine R C g0) c0 q ∧
      IsZeroCell (mkTypes sp emote).mine R C g0 q) →
    revealGo R C ((mkTypes sp emote).numbers.getD 0 "") fuel m ws = some m' →
    GoodM (mkTypes sp emote) R C g0 c0 m' := by
  intro fuel
  induction fuel with
  | zero =>
    intro m ws m' hg hws h
    cases ws with
    | nil =>
      obtain rfl := Option.some.injEq .. |>.mp h
      exact hg
    | cons c rest => simp [revealGo] at h
  | succ f ih =>
    intro m ws m' hg hws h
    cases ws with
    | nil =>
      obtain rfl := Option.some.injEq .. |>.mp h
      exact hg
    | cons c rest =>
      rw [show revealGo R C ((mkTypes sp emote).numbers.getD 0 "") (f + 1) m (c :: rest) =
          revealGo R C ((mkTypes sp emote).numbers.getD 0 "") f
            (revealStep R C ((mkTypes sp emote).numbers.getD 0 "") m c).1
            ((revealStep R C ((mkTypes sp emote).numbers.getD 0 "") m c).2 ++ rest)
          from rfl] at h
      obtain ⟨hcz, hc1, hc2, hcsafe, hccount⟩ :
          ZChain (IsZeroCell (mkTypes sp emote).mine R C g0) c0 c ∧
          c.1 < R ∧ c.2 < C ∧ getCell g0 c.1 c.2 ≠ (mkTypes sp emote).mine ∧
          specMineCount (mkTypes sp emote).mine R C g0 c.1 c.2 = 0 := by
        obtain ⟨h1, h2, h3, h4, h5⟩ := hws c (by simp)
        exact ⟨h1, h2, h3, h4, h5⟩
      -- every cell of the 3×3 box of the zero cell `c` is safe
      have hboxsafe : ∀ q : Nat × Nat, q ∈ boxList R C c →
          getCell g0 q.1 q.2 ≠ (mkTypes sp emote).mine := by
        intro q hq
        obtain ⟨hq1, hq2, hqnear⟩ := boxList_window hR hC hq
        by_cases hqc : q = c
        · subst hqc
          exact hcsafe
        · refine zero_no_mine_neighbors hc1 hc2 hccount q hq1 hq2 ?_ ?_
          · obtain ⟨a, b, c', d⟩ := hqnear
            exact ⟨a, b, c', d⟩
          · intro hqe
            exact hqc (by rw [hqe])
      -- the swept matrix still satisfies the invariant
      have hg1 : GoodM (mkTypes sp emote) R C g0 c0
          (revealStep R C ((mkTypes sp emote).numbers.getD 0 "") m c).1 := by
        refine ⟨revealStep_shape hg.1 _ c, ?_⟩
        intro i j hi hj
        rw [revealStep_matrix]
        by_cases hcond : ((i, j) : Nat × Nat) ∈
            boxList R C c ∧ hasBars (getCell m i j) = true
        · rw [if_pos hcond]
          have hsafe : getCell g0 i j ≠ (mkTypes sp emote).mine :=
            hboxsafe (i, j) hcond.1
          have hcell : getCell m i j =
              getCell (populateMatrix (mkTypes sp emote) R C g0) i j := by
            rcases hg.2 i j hi hj with hcase | ⟨hslice, hsafe', _⟩
            · exact hcase
            · rw [hslice] at hcond
              rw [pop_safe_slice_noBars hsh hi hj hsafe'] at hcond
              exact absurd hcond.2 (by simp)
          rw [hcell]
          right
          refine ⟨rfl, hsafe, c, hcz, ?_⟩
          obtain ⟨_, _, hnear⟩ := boxList_window hR hC hcond.1
          exact hnear
        · rw [if_neg hcond]
          exact hg.2 i j hi hj
      -- all recorded zeros are chained zero cells
      have hzs : ∀ q ∈ (revealStep R C ((mkTypes sp emote).numbers.getD 0 "") m c).2,
          ZChain (IsZeroCell (mkTypes sp emote).mine R C g0) c0 q ∧
          IsZeroCell (mkTypes sp emote).mine R C g0 q := by
        intro z hz
        obtain ⟨hbox, hbar, hz0⟩ := mem_revealStep_zeros.mp hz
        obtain ⟨hz1, hz2, hznear⟩ := boxList_window hR hC hbox
        have hcell : getCell m z.1 z.2 =
            getCell (populateMatrix (mkTypes sp emote) R C g0) z.1 z.2 := by
          rcases hg.2 z.1 z.2 hz1 hz2 with hcase | ⟨hslice, hsafe', _⟩
          · exact hcase
          · rw [hslice] at hbar
            rw [pop_safe_slice_noBars hsh hz1 hz2 hsafe'] at hbar
            exact absurd hbar (by simp)
        rw [hcell] at hz0
        obtain ⟨hzsafe, hzcount⟩ := (pop_eq_num0_iff hsh he hz1 hz2).mp hz0
        have hzero : IsZeroCell (mkTypes sp emote).mine R C g0 z :=
          ⟨hz1, hz2, hzsafe, hzcount⟩
        exact ⟨ZChain.step c z hcz hznear hzero, hzero⟩
      refine ih _ _ m' hg1 ?_ h
      intro q hq
      rcases List.mem_append.mp hq with hq' | hq'
      · exact hzs q hq'
      · exact hws q (List.mem_cons_of_mem _ hq')

/-! ## Claim theorems -/

/-- C7: generation is deterministic in the random stream.  With the
process-wide `Math.random` embedded as an explicit draw stream, two
`start` runs on generators constructed from the same options, fed
pointwise-equal streams, produce identical results — state, output and
draw counter — so the board depends on nothing but the configuration and
the stream.  (The source itself offers no way to inject that stream:
`MinesweeperOpts` has no `rng` member and `plantMines` calls the global
`Math.random`, even though the test suite constructs `Minesweeper`
instances with an `rng` option.) -/
theorem c7_start_deterministic (opts : Opts) (σ σ2 : Nat → Nat) (k fuel : Nat)
    (h : ∀ n, σ n = σ2 n) :
    start (construct opts) σ k fuel = start (construct opts) σ2 k fuel := by
  rw [funext h]

theorem c7_start_deterministic_witness :
    (∀ n, sigma0 n = sigma0 n) ∧
    start (construct {}) sigma0 0 0 = start (construct {}) sigma0 0 0 :=
  ⟨fun _ => rfl, c7_start_deterministic {} sigma0 sigma0 0 0 (fun _ => rfl)⟩

/-- C8: constructing with `mines: 0` does not keep the mine count 0.  The
constructor's `(opts && opts.mines) \x7c\x7c 10` coerces the falsy `0` to the
default `10`, so for rows=2, columns=2, mines=0 the density gate
`2*2 <= 2*10` fires and `start` returns `null`, not the all-zero board.
The expected text appears only when the resolved `mines` field really is
`0` (constructor bypassed). -/
theorem c8_mines_zero_coerced :
    (construct { rows := some 2, columns := some 2, mines := some 0 }).mines = 10 ∧
    (start (construct { rows := some 2, columns := some 2, mines := some 0 })
      sigma0 0 5).map (fun p => p.2.1) = some (Except.ok StartResult.nullR) ∧
    (start (mkMS 2 2 0 "boom" true false true .emoji) sigma0 0 0).map
      (fun p => p.2.1) =
      some (Except.ok (StartResult.emoji
        "|| :zero: || || :zero: ||\n|| :zero: || || :zero: ||")) :=
  ⟨rfl, rfl, rfl⟩

/-- C9 counterexample: with spacing enabled, unmasking the zero cell
leaves `" :zero: "` — the bars are stripped but the two inner spaces
remain, so the revealed cell is not exactly the bare symbol token. -/
theorem c9_counterexample :
    slice2 (spoilerize true "zero") = " :zero: " ∧
    slice2 (spoilerize true "zero") ≠ ":zero:" ∧
    slice2 (spoilerize true "zero") ≠ "zero" := by
  refine ⟨rfl, ?_, ?_⟩ <;> decide

/-- C9 (amended): masked cells render as the spoiler-wrapped symbol
token, and unmasking strips exactly the two leading and two trailing
characters (the bars): the revealed cell is exactly the bare token
`:name:` when spacing is disabled, and the bare token padded by one space
on each side when spacing is enabled; the rendered text of a one-cell
grid is that cell string itself. -/
theorem c9_amended (sp : Bool) (name : String) :
    spoilerize sp name = (if sp then "|| " ++ (":" ++ name ++ ":") ++ " ||"
      else "||" ++ (":" ++ name ++ ":") ++ "||") ∧
    slice2 (spoilerize sp name) = (if sp then " " ++ (":" ++ name ++ ":") ++ " "
      else ":" ++ name ++ ":") ∧
    (∀ st : MS, st.matrix = [[spoilerize sp name]] →
      getTextRepresentation st = spoilerize sp name) ∧
    (∀ st : MS, st.matrix = [[slice2 (spoilerize sp name)]] →
      getTextRepresentation st = slice2 (spoilerize sp name)) := by
  refine ⟨?_, ?_, ?_, ?_⟩
  · cases sp
    · apply String.ext
      rw [data_spoilerize_false]
      simp [String.data_append]
    · apply String.ext
      rw [data_spoilerize_true]
      simp [String.data_append]
  · cases sp
    · rw [slice2_spoilerize_false]
      apply String.ext
      simp [String.data_append]
    · rw [slice2_spoilerize_true]
      apply String.ext
      simp [String.data_append]
  · intro st hm
    rw [getTextRepresentation, hm]
    rfl
  · intro st hm
    rw [getTextRepresentation, hm]
    rfl

theorem c9_amended_witness :
    spoilerize true "zero" = "|| " ++ (":" ++ "zero" ++ ":") ++ " ||" ∧
    ({ mkMS 1 1 0 "boom" true false true .emoji with
      matrix := [[spoilerize true "zero"]] } : MS).matrix = [[spoilerize true "zero"]] ∧
    getTextRepresentation ({ mkMS 1 1 0 "boom" true false true .emoji with
      matrix := [[spoilerize true "zero"]] } : MS) = spoilerize true "zero" :=
  ⟨(c9_amended true "zero").1, rfl, (c9_amended true "zero").2.2.1 _ rfl⟩

/-- C10: a second `start` call on the same instance does not begin from a
fresh grid and registry: `generateEmptyMatrix` pushes onto the existing
matrix and `populate` appends to the never-cleared `safeCells`.  On a 1×1
mine-free generator the first run ends with a 1-row matrix and one
registered safe cell, while a second run ends with a 2-row matrix and a
3-entry registry instead of a fresh 1×1 grid and 1-entry registry. -/
theorem c10_second_run_extends :
    ((start (mkMS 1 1 0 "boom" true false true .emoji) sigma0 0 1).map
      (fun p => (p.1.matrix.length, p.1.safeCells.length))) = some (1, 1) ∧
    (((start (mkMS 1 1 0 "boom" true false true .emoji) sigma0 0 1).bind
      (fun p => start p.1 sigma0 p.2.2 1)).map
      (fun p => (p.1.matrix.length, p.1.safeCells.length))) = some (2, 3) :=
  ⟨rfl, rfl⟩

/-- C2: after Neighbor Annotation (`populate`) runs on an `R × C`
mine-placed grid, every non-mine cell records `numbers[k]`, where `k` is
exactly the spec-side count of its in-bounds 8-neighbors that are mine
cells (neighbors outside `[0,R) × [0,C)` contributing 0), and `k ≤ 8`. -/
theorem c2_neighbor_counts (types : CellTypes) (R C : Nat) (g0 : Matrix)
    (hsh : Shaped R C g0) (x y : Nat) (hx : x < R) (hy : y < C)
    (hne : getCell g0 x y ≠ types.mine) :
    getCell (populateMatrix types R C g0) x y =
      types.numbers.getD (specMineCount types.mine R C g0 x y) "" ∧
    specMineCount types.mine R C g0 x y ≤ 8 := by
  constructor
  · rw [getCell_populateMatrix _ _ _ _ (by rw [hsh.1]; exact hx)
      (by rw [hsh.rowlen hx]; exact hy)]
    exact getNumberOfMines_eq_spec _ _ _ _ _ _ hx hy hne
  · exact specMineCount_le_8 _ _ _ _ _ _

theorem c2_neighbor_counts_witness :
    Shaped 2 2 [[spoilerize true "boom", spoilerize true "zero"],
      [spoilerize true "zero", spoilerize true "zero"]] ∧
    (1 : Nat) < 2 ∧ (1 : Nat) < 2 ∧
    getCell [[spoilerize true "boom", spoilerize true "zero"],
      [spoilerize true "zero", spoilerize true "zero"]] 1 1 ≠
      (mkTypes true "boom").mine ∧
    (getCell (populateMatrix (mkTypes true "boom") 2 2
        [[spoilerize true "boom", spoilerize true "zero"],
         [spoilerize true "zero", spoilerize true "zero"]]) 1 1 =
      (mkTypes true "boom").numbers.getD
        (specMineCount (mkTypes true "boom").mine 2 2
          [[spoilerize true "boom", spoilerize true "zero"],
           [spoilerize true "zero", spoilerize true "zero"]] 1 1) "" ∧
    specMineCount (mkTypes true "boom").mine 2 2
      [[spoilerize true "boom", spoilerize true "zero"],
       [spoilerize true "zero", spoilerize true "zero"]] 1 1 ≤ 8) :=
  ⟨by unfold Shaped
      exact ⟨by decide, by decide⟩,
   by decide, by decide, by decide,
   c2_neighbor_counts (mkTypes true "boom") 2 2 _
     (by unfold Shaped
         exact ⟨by decide, by decide⟩) 1 1 (by decide) (by decide) (by decide)⟩

/-- C6: on a populated board with reveal-first enabled and either
force-zero-start disabled or no zero-count safe cell in the registry,
`revealFirst` picks a cell of the SafeCell registry — a non-mine cell —
unmasks exactly that one cell without any flood fill, and returns its
coordinate: the chosen cell goes from spoilered to bare, and every other
in-bounds cell is untouched and still spoilered. -/
theorem c6_reveal_single (sp : Bool) (emote : String) (R C : Nat) (g0 : Matrix)
    (hsh : Shaped R C g0) (σ : Nat → Nat) (k : Nat) (st : MS)
    (hty : st.types = mkTypes sp emote)
    (hm : st.matrix = populateMatrix (mkTypes sp emote) R C g0)
    (hsc : st.safeCells = populateSafe (mkTypes sp emote) g0)
    (hrfc : st.revealFirstCell = true)
    (hbranch : st.zeroFirstCell = false ∨
      st.safeCells.filter (fun c => getCell st.matrix c.1 c.2 =
        st.types.numbers.getD 0 "") = [])
    (hne : st.safeCells ≠ []) :
    ∃ c : Nat × Nat, c ∈ st.safeCells ∧
      getCell g0 c.1 c.2 ≠ (mkTypes sp emote).mine ∧
      revealFirst st σ k = some
        ({ st with matrix :=
            setCell st.matrix c.1 c.2 (slice2 (getCell st.matrix c.1 c.2)) },
         ((c.1 : Int), (c.2 : Int)), k + 1) ∧
      hasBars (getCell st.matrix c.1 c.2) = true ∧
      hasBars (getCell (setCell st.matrix c.1 c.2
        (slice2 (getCell st.matrix c.1 c.2))) c.1 c.2) = false ∧
      (∀ i j, i < R → j < C → (i, j) ≠ c →
        getCell (setCell st.matrix c.1 c.2
          (slice2 (getCell st.matrix c.1 c.2))) i j = getCell st.matrix i j ∧
        hasBars (getCell st.matrix i j) = true) := by
  have hlen : 0 < st.safeCells.length := by
    cases hsc2 : st.safeCells with
    | nil => exact absurd hsc2 hne
    | cons a t => simp [hsc2]
  have hidx : draw σ k st.safeCells.length < st.safeCells.length := draw_lt hlen
  set c := st.safeCells.getD (draw σ k st.safeCells.length) (0, 0) with hc
  have hmem : c ∈ st.safeCells := by
    rw [hc, List.getD_eq_getElem _ _ hidx]
    exact List.getElem_mem hidx
  have hinfo := (mem_populateSafe (mkTypes sp emote) g0 c).mp (hsc ▸ hmem)
  have hc1 : c.1 < R := by
    have := hinfo.1
    rw [hsh.1] at this
    exact this
  have hc2 : c.2 < C := by
    have := hinfo.2.1
    rw [hsh.rowlen hc1] at this
    exact this
  have hcsafe : getCell g0 c.1 c.2 ≠ (mkTypes sp emote).mine := hinfo.2.2
  have hpopsh : Shaped R C st.matrix := by
    rw [hm]
    exact populateMatrix_shape hsh _ _ _
  have hbars : hasBars (getCell st.matrix c.1 c.2) = true := by
    rw [hm]
    exact pop_hasBars hsh hc1 hc2
  have hnobars : hasBars (getCell (setCell st.matrix c.1 c.2
      (slice2 (getCell st.matrix c.1 c.2))) c.1 c.2) = false := by
    rw [getCell_setCell, if_pos ⟨rfl, rfl, by rw [hpopsh.1]; exact hc1,
      by rw [hpopsh.rowlen hc1]; exact hc2⟩]
    rw [hm]
    exact pop_safe_slice_noBars hsh hc1 hc2 hcsafe
  refine ⟨c, hmem, hcsafe, ?_, hbars, hnobars, ?_⟩
  · rw [revealFirst, if_neg (by rw [hrfc]; simp)]
    rw [if_neg ?hcond, if_neg hne]
    case hcond =>
      rcases hbranch with hb | hb
      · rintro ⟨h1, _⟩
        rw [hb] at h1
        cases h1
      · rintro ⟨_, h2⟩
        exact h2 hb
  · intro i j hi hj hij
    constructor
    · rw [getCell_setCell, if_neg]
      rintro ⟨h1, h2, _, _⟩
      exact hij (by rw [← h1, ← h2])
    · rw [hm]
      exact pop_hasBars hsh hi hj

theorem c6_reveal_single_witness :
    ∃ c : Nat × Nat, c ∈ st6fix.safeCells ∧
      getCell g6fix c.1 c.2 ≠ (mkTypes false "boom").mine ∧
      revealFirst st6fix sigma0 0 = some
        ({ st6fix with matrix := setCell st6fix.matrix c.1 c.2 (slice2 (getCell st6fix.matrix c.1 c.2)) }, ((c.1 : Int), (c.2 : Int)), 0 + 1) ∧
      hasBars (getCell st6fix.matrix c.1 c.2) = true ∧
      hasBars (getCell (setCell st6fix.matrix c.1 c.2 (slice2 (getCell st6fix.matrix c.1 c.2))) c.1 c.2) = false ∧
      (∀ i j, i < 2 → j < 2 → (i, j) ≠ c →
        getCell (setCell st6fix.matrix c.1 c.2 (slice2 (getCell st6fix.matrix c.1 c.2))) i j = getCell st6fix.matrix i j ∧
        hasBars (getCell st6fix.matrix i j) = true) :=
  c6_reveal_single false "boom" 2 2 g6fix
    (by unfold Shaped
        exact ⟨by decide, by decide⟩)
    sigma0 0 st6fix rfl rfl rfl rfl (Or.inr (by decide)) (by decide)

theorem countBars_eq_countCells (rows cols : Nat) (m : Matrix) :
    countBars rows cols m = countCells rows cols m (fun s => hasBars s = true) := rfl

/-- C3: on a populated grid (populate of a mine-placed layout, with a
mine symbol distinct from the number symbols), running the recursive
flood fill from a seed whose cell holds the zero token never changes a
mine cell — mines stay masked — and every cell it does change lies in
the 3×3 neighborhood of some cell of a chain of adjacent zero-count
cells starting at the seed. -/
theorem c3_flood_safety (sp : Bool) (emote : String) (R C : Nat) (g0 : Matrix)
    (c0 : Nat × Nat) (hsh : Shaped R C g0) (hR : 0 < R) (hC : 0 < C)
    (he : emoteOK emote) (h01 : c0.1 < R) (h02 : c0.2 < C)
    (hz : getCell (populateMatrix (mkTypes sp emote) R C g0) c0.1 c0.2 =
      (mkTypes sp emote).numbers.getD 0 "") :
    ∀ (fuel : Nat) (m' : Matrix),
    revealSurroundings R C ((mkTypes sp emote).numbers.getD 0 "") fuel
      (populateMatrix (mkTypes sp emote) R C g0) c0 true = some m' →
    (∀ i j, i < R → j < C → getCell g0 i j = (mkTypes sp emote).mine →
      getCell m' i j = getCell (populateMatrix (mkTypes sp emote) R C g0) i j) ∧
    (∀ i j, i < R → j < C →
      getCell m' i j ≠ getCell (populateMatrix (mkTypes sp emote) R C g0) i j →
      getCell g0 i j ≠ (mkTypes sp emote).mine ∧
      ∃ d, ZChain (IsZeroCell (mkTypes sp emote).mine R C g0) c0 d ∧
        near d (i, j)) := by
  intro fuel m' h
  rw [revealSurroundings, if_pos rfl] at h
  obtain ⟨hzsafe, hzcount⟩ := (pop_eq_num0_iff hsh he h01 h02).mp hz
  have hzero : IsZeroCell (mkTypes sp emote).mine R C g0 c0 :=
    ⟨h01, h02, hzsafe, hzcount⟩
  have hg0 : GoodM (mkTypes sp emote) R C g0 c0
      (populateMatrix (mkTypes sp emote) R C g0) :=
    ⟨populateMatrix_shape hsh _ _ _, fun i j _ _ => Or.inl rfl⟩
  have hgood := revealGo_good hsh hR hC he fuel _ [c0] m' hg0
    (by
      intro q hq
      rw [List.mem_singleton] at hq
      subst hq
      exact ⟨ZChain.base, hzero⟩) h
  constructor
  · intro i j hi hj hm
    rcases hgood.2 i j hi hj with hcase | ⟨_, hsafe, _⟩
    · exact hcase
    · exact absurd hm hsafe
  · intro i j hi hj hne
    rcases hgood.2 i j hi hj with hcase | ⟨_, hsafe, d, hchain, hnear⟩
    · exact absurd hcase hne
    · exact ⟨hsafe, d, hchain, hnear⟩

theorem c3_flood_safety_witness :
    Shaped 1 1 [[spoilerize true "zero"]] ∧ (0 : Nat) < 1 ∧ emoteOK "boom" ∧
    getCell (populateMatrix (mkTypes true "boom") 1 1 [[spoilerize true "zero"]]) 0 0 =
      (mkTypes true "boom").numbers.getD 0 "" ∧
    revealSurroundings 1 1 ((mkTypes true "boom").numbers.getD 0 "") 2
      (populateMatrix (mkTypes true "boom") 1 1 [[spoilerize true "zero"]])
      (0, 0) true = some [[" :zero: "]] ∧
    ((∀ i j, i < 1 → j < 1 →
      getCell [[spoilerize true "zero"]] i j = (mkTypes true "boom").mine →
      getCell [[" :zero: "]] i j =
        getCell (populateMatrix (mkTypes true "boom") 1 1
          [[spoilerize true "zero"]]) i j) ∧
    (∀ i j, i < 1 → j < 1 →
      getCell [[" :zero: "]] i j ≠
        getCell (populateMatrix (mkTypes true "boom") 1 1
          [[spoilerize true "zero"]]) i j →
      getCell [[spoilerize true "zero"]] i j ≠ (mkTypes true "boom").mine ∧
      ∃ d, ZChain (IsZeroCell (mkTypes true "boom").mine 1 1
        [[spoilerize true "zero"]]) (0, 0) d ∧ near d (i, j))) :=
  ⟨by unfold Shaped
      exact ⟨by decide, by decide⟩,
   by decide,
   by unfold emoteOK
      decide,
   by decide, by decide,
   c3_flood_safety true "boom" 1 1 [[spoilerize true "zero"]] (0, 0)
     (by unfold Shaped
         exact ⟨by decide, by decide⟩)
     (by decide) (by decide)
     (by unfold emoteOK
         decide)
     (by decide) (by decide) (by decide) 2 [[" :zero: "]] (by decide)⟩

/-- C4: the recursive flood fill terminates on every populated grid: fuel
`countBars + 1` — one expansion per masked cell of the window, plus the
seed — always suffices (each cell is unmasked at most once, and a cell is
queued as a seed only at the moment it is still masked, so there are only
finitely many expansions), and on a populated grid every cell of the
result is its populate value or that value sliced exactly once. -/
theorem c4_flood_terminates (sp : Bool) (emote : String) (R C : Nat) (g0 : Matrix)
    (c0 : Nat × Nat) (hsh : Shaped R C g0) (hR : 0 < R) (hC : 0 < C)
    (he : emoteOK emote) (h01 : c0.1 < R) (h02 : c0.2 < C)
    (hz : getCell (populateMatrix (mkTypes sp emote) R C g0) c0.1 c0.2 =
      (mkTypes sp emote).numbers.getD 0 "") :
    (revealSurroundings R C ((mkTypes sp emote).numbers.getD 0 "")
      (countBars R C (populateMatrix (mkTypes sp emote) R C g0) + 1)
      (populateMatrix (mkTypes sp emote) R C g0) c0 true).isSome = true ∧
    (∀ (fuel : Nat) (m' : Matrix),
      revealSurroundings R C ((mkTypes sp emote).numbers.getD 0 "") fuel
        (populateMatrix (mkTypes sp emote) R C g0) c0 true = some m' →
      ∀ i j, i < R → j < C →
        getCell m' i j = getCell (populateMatrix (mkTypes sp emote) R C g0) i j ∨
        getCell m' i j =
          slice2 (getCell (populateMatrix (mkTypes sp emote) R C g0) i j)) := by
  constructor
  · rw [revealSurroundings, if_pos rfl]
    obtain ⟨m', heq, _, _⟩ := revealGo_adequate hR hC
      (@noBars_slice2_numbers sp emote 0 (by omega))
      (countBars R C (populateMatrix (mkTypes sp emote) R C g0) + 1)
      (populateMatrix (mkTypes sp emote) R C g0) [c0]
      (by rw [countBars_eq_countCells]
          simp)
    rw [heq]
    rfl
  · intro fuel m' h
    rw [revealSurroundings, if_pos rfl] at h
    obtain ⟨hzsafe, hzcount⟩ := (pop_eq_num0_iff hsh he h01 h02).mp hz
    have hgood := revealGo_good hsh hR hC he fuel _ [c0] m'
      ⟨populateMatrix_shape hsh _ _ _, fun i j _ _ => Or.inl rfl⟩
      (by
        intro q hq
        rw [List.mem_singleton] at hq
        subst hq
        exact ⟨ZChain.base, ⟨h01, h02, hzsafe, hzcount⟩⟩) h
    intro i j hi hj
    rcases hgood.2 i j hi hj with hcase | ⟨hcase, _⟩
    · exact Or.inl hcase
    · exact Or.inr hcase

theorem c4_flood_terminates_witness :
    Shaped 1 1 [[spoilerize true "zero"]] ∧ (0 : Nat) < 1 ∧ emoteOK "boom" ∧
    getCell (populateMatrix (mkTypes true "boom") 1 1 [[spoilerize true "zero"]]) 0 0 =
      (mkTypes true "boom").numbers.getD 0 "" ∧
    ((revealSurroundings 1 1 ((mkTypes true "boom").numbers.getD 0 "")
      (countBars 1 1 (populateMatrix (mkTypes true "boom") 1 1
        [[spoilerize true "zero"]]) + 1)
      (populateMatrix (mkTypes true "boom") 1 1 [[spoilerize true "zero"]])
      (0, 0) true).isSome = true ∧
    (∀ (fuel : Nat) (m' : Matrix),
      revealSurroundings 1 1 ((mkTypes true "boom").numbers.getD 0 "") fuel
        (populateMatrix (mkTypes true "boom") 1 1 [[spoilerize true "zero"]])
        (0, 0) true = some m' →
      ∀ i j, i < 1 → j < 1 →
        getCell m' i j = getCell (populateMatrix (mkTypes true "boom") 1 1
          [[spoilerize true "zero"]]) i j ∨
        getCell m' i j = slice2 (getCell (populateMatrix (mkTypes true "boom") 1 1
          [[spoilerize true "zero"]]) i j))) :=
  ⟨by unfold Shaped
      exact ⟨by decide, by decide⟩,
   by decide,
   by unfold emoteOK
      decide,
   by decide,
   c4_flood_terminates true "boom" 1 1 [[spoilerize true "zero"]] (0, 0)
     (by unfold Shaped
         exact ⟨by decide, by decide⟩)
     (by decide) (by decide)
     (by unfold emoteOK
         decide)
     (by decide) (by decide) (by decide)⟩

/-! ## The full `start` pipeline -/

theorem replicate_shaped (R C : Nat) (v : String) :
    Shaped R C (List.replicate R (List.replicate C v)) := by
  constructor
  · simp
  · intro r hr
    rw [List.eq_of_mem_replicate hr]
    simp

theorem getCell_replicate {R C : Nat} {i j : Nat} (hi : i < R) (hj : j < C)
    (v : String) : getCell (List.replicate R (List.replicate C v)) i j = v := by
  rw [getCell]
  have h1 : (List.replicate R (List.replicate C v)).getD i [] = List.replicate C v := by
    rw [List.getD_eq_getElem _ _ (by simpa using hi), List.getElem_replicate]
  rw [h1, List.getD_eq_getElem _ _ (by simpa using hj), List.getElem_replicate]

theorem countCells_eq_zero {R C : Nat} {m : Matrix} (p : String → Prop)
    [DecidablePred p] (h : ∀ i j, i < R → j < C → ¬ p (getCell m i j)) :
    countCells R C m p = 0 := by
  unfold countCells
  rw [Finset.card_eq_zero, Finset.filter_eq_empty_iff]
  intro q hq
  rw [idxFinset, Finset.mem_product, Finset.mem_range, Finset.mem_range] at hq
  exact h q.1 q.2 hq.1 hq.2

theorem countCells_congr2 {R C : Nat} {m₁ m₂ : Matrix} (p₁ p₂ : String → Prop)
    [DecidablePred p₁] [DecidablePred p₂]
    (h : ∀ i j, i < R → j < C → (p₁ (getCell m₁ i j) ↔ p₂ (getCell m₂ i j))) :
    countCells R C m₁ p₁ = countCells R C m₂ p₂ := by
  unfold countCells
  congr 1
  apply Finset.filter_congr
  intro q hq
  rw [idxFinset, Finset.mem_product, Finset.mem_range, Finset.mem_range] at hq
  exact h q.1 q.2 hq.1 hq.2

/-- If fewer than all window cells are mines, the registry built by
`populate` is nonempty. -/
theorem populateSafe_ne_nil {sp : Bool} {emote : String} {R C M : Nat} {g0 : Matrix}
    (hsh : Shaped R C g0) (hR : 0 < R) (hC : 0 < C)
    (hcount : countCells R C g0 (· = (mkTypes sp emote).mine) = M)
    (hlt : M < R * C) :
    populateSafe (mkTypes sp emote) g0 ≠ [] := by
  have hex : ∃ i j, i < R ∧ j < C ∧ getCell g0 i j ≠ (mkTypes sp emote).mine := by
    by_contra hall
    push_neg at hall
    have : countCells R C g0 (· = (mkTypes sp emote).mine) = R * C := by
      unfold countCells
      rw [Finset.filter_true_of_mem]
      · rw [idxFinset, Finset.card_product, Finset.card_range, Finset.card_range]
      · intro q hq
        rw [idxFinset, Finset.mem_product, Finset.mem_range, Finset.mem_range] at hq
        exact hall q.1 q.2 hq.1 hq.2
    omega
  obtain ⟨i, j, hi, hj, hne⟩ := hex
  intro hnil
  have hmem : ((i, j) : Nat × Nat) ∈ populateSafe (mkTypes sp emote) g0 := by
    rw [mem_populateSafe]
    refine ⟨by rw [hsh.1]; exact hi, by rw [hsh.rowlen hi]; exact hj, hne⟩
  rw [hnil] at hmem
  cases hmem

/-- What `revealFirst` does on a freshly populated board whose registry is
nonempty: it returns without throwing, changes no field but the matrix,
and every cell of the new matrix is its populate value or that value
sliced once. -/
theorem revealFirst_spec (sp : Bool) (emote : String) (R C : Nat) (g0 : Matrix)
    (hsh : Shaped R C g0) (hR : 0 < R) (hC : 0 < C) (he : emoteOK emote)
    (st : MS) (σ : Nat → Nat) (k : Nat)
    (hty : st.types = mkTypes sp emote) (hrows : st.rows = R)
    (hcols : st.columns = C)
    (hm : st.matrix = populateMatrix (mkTypes sp emote) R C g0)
    (hsc : st.safeCells = populateSafe (mkTypes sp emote) g0)
    (hne : st.safeCells ≠ []) :
    ∃ st2 coords k2, revealFirst st σ k = some (st2, coords, k2) ∧
      st2.rows = st.rows ∧ st2.columns = st.columns ∧ st2.mines = st.mines ∧
      st2.spaces = st.spaces ∧ st2.returnType = st.returnType ∧
      st2.types = st.types ∧
      Shaped R C st2.matrix ∧
      (∀ i j, i < R → j < C →
        getCell st2.matrix i j =
          getCell (populateMatrix (mkTypes sp emote) R C g0) i j ∨
        getCell st2.matrix i j =
          slice2 (getCell (populateMatrix (mkTypes sp emote) R C g0) i j)) := by
  have hpopsh : Shaped R C (populateMatrix (mkTypes sp emote) R C g0) :=
    populateMatrix_shape hsh _ _ _
  by_cases h1 : st.revealFirstCell = false
  · refine ⟨st, (-1, -1), k, ?_, rfl, rfl, rfl, rfl, rfl, rfl, by rw [hm]; exact hpopsh,
      fun i j _ _ => Or.inl (by rw [hm])⟩
    rw [revealFirst, if_pos h1]
  · by_cases h2 : st.zeroFirstCell = true ∧
        st.safeCells.filter (fun c => getCell st.matrix c.1 c.2 =
          st.types.numbers.getD 0 "") ≠ []
    · -- zero branch: slice the chosen zero cell, then flood fill
      have hzlen : 0 < (st.safeCells.filter (fun c => getCell st.matrix c.1 c.2 =
          st.types.numbers.getD 0 "")).length := by
        cases hzc : st.safeCells.filter (fun c => getCell st.matrix c.1 c.2 =
            st.types.numbers.getD 0 "") with
        | nil => exact absurd hzc h2.2
        | cons a t => simp [hzc]
      set zc := (st.safeCells.filter (fun c => getCell st.matrix c.1 c.2 =
        st.types.numbers.getD 0 "")).getD
        (draw σ k (st.safeCells.filter (fun c => getCell st.matrix c.1 c.2 =
          st.types.numbers.getD 0 "")).length) (0, 0) with hzc
      have hzmem : zc ∈ st.safeCells.filter (fun c => getCell st.matrix c.1 c.2 =
          st.types.numbers.getD 0 "") := by
        rw [hzc, List.getD_eq_getElem _ _ (draw_lt hzlen)]
        exact List.getElem_mem (draw_lt hzlen)
      have hzsafe : zc ∈ st.safeCells ∧ getCell st.matrix zc.1 zc.2 =
          st.types.numbers.getD 0 "" := by
        have := List.mem_filter.mp hzmem
        exact ⟨this.1, by simpa using this.2⟩
      have hinfo := (mem_populateSafe (mkTypes sp emote) g0 zc).mp (hsc ▸ hzsafe.1)
      have hzc1 : zc.1 < R := by
        have := hinfo.1
        rw [hsh.1] at this
        exact this
      have hzc2 : zc.2 < C := by
        have := hinfo.2.1
        rw [hsh.rowlen hzc1] at this
        exact this
      have hzero : IsZeroCell (mkTypes sp emote).mine R C g0 zc := by
        have hz0 : getCell (populateMatrix (mkTypes sp emote) R C g0) zc.1 zc.2 =
            (mkTypes sp emote).numbers.getD 0 "" := by
          rw [← hm, ← hty]
          exact hzsafe.2
        obtain ⟨ha, hb⟩ := (pop_eq_num0_iff hsh he hzc1 hzc2).mp hz0
        exact ⟨hzc1, hzc2, ha, hb⟩
      set m1 := setCell st.matrix zc.1 zc.2 (slice2 (getCell st.matrix zc.1 zc.2))
        with hm1
      have hg1 : GoodM (mkTypes sp emote) R C g0 zc m1 := by
        constructor
        · rw [hm1, hm]
          exact hpopsh.setCell _ _ _
        · intro i j hi hj
          rw [hm1, hm, getCell_setCell]
          by_cases hij : zc.1 = i ∧ zc.2 = j ∧
              zc.1 < (populateMatrix (mkTypes sp emote) R C g0).length ∧
              zc.2 < ((populateMatrix (mkTypes sp emote) R C g0).getD zc.1 []).length
          · rw [if_pos hij]
            right
            obtain ⟨hi1, hj1, _, _⟩ := hij
            refine ⟨by rw [← hi1, ← hj1], by rw [← hi1, ← hj1]; exact hzero.2.2.1,
              zc, ZChain.base, ?_⟩
            rw [← hi1, ← hj1]
            exact ⟨by omega, by omega, by omega, by omega⟩
          · rw [if_neg hij]
            exact Or.inl rfl
      obtain ⟨m2, hm2eq, _, _⟩ := revealGo_adequate hR hC
        (@noBars_slice2_numbers sp emote 0 (by omega))
        (countBars R C m1 + 1) m1 [zc]
        (by rw [countBars_eq_countCells]
            simp)
      have hgood2 : GoodM (mkTypes sp emote) R C g0 zc m2 :=
        revealGo_good hsh hR hC he _ _ [zc] m2 hg1
          (by
            intro q hq
            rw [List.mem_singleton] at hq
            subst hq
            exact ⟨ZChain.base, hzero⟩) hm2eq
      set mfin := (revealGo st.rows st.columns (st.types.numbers.getD 0 "") (countBars st.rows st.columns m1 + 1) m1 [zc]).getD m1 with hmfin
      have hmfin2 : mfin = m2 := by
        rw [hmfin, hrows, hcols, hty, hm2eq]
        rfl
      refine ⟨{ st with matrix := mfin }, ((zc.1 : Int), (zc.2 : Int)), k + 1, ?_, rfl, rfl, rfl, rfl, rfl, rfl, ?_, ?_⟩
      · rw [revealFirst, if_neg h1, if_pos h2]
      · rw [show ({ st with matrix := mfin } : MS).matrix = mfin from rfl, hmfin2]
        exact hgood2.1
      · intro i j hi hj
        rw [show ({ st with matrix := mfin } : MS).matrix = mfin from rfl, hmfin2]
        rcases hgood2.2 i j hi hj with hcase | ⟨hcase, _⟩
        · exact Or.inl hcase
        · exact Or.inr hcase
    · -- plain branch: slice one safe cell
      have hlen : 0 < st.safeCells.length := by
        cases hsc2 : st.safeCells with
        | nil => exact absurd hsc2 hne
        | cons a t => simp [hsc2]
      set c := st.safeCells.getD (draw σ k st.safeCells.length) (0, 0) with hcdef
      have hmem : c ∈ st.safeCells := by
        rw [hcdef, List.getD_eq_getElem _ _ (draw_lt hlen)]
        exact List.getElem_mem (draw_lt hlen)
      have hinfo := (mem_populateSafe (mkTypes sp emote) g0 c).mp (hsc ▸ hmem)
      have hc1 : c.1 < R := by
        have := hinfo.1
        rw [hsh.1] at this
        exact this
      have hc2 : c.2 < C := by
        have := hinfo.2.1
        rw [hsh.rowlen hc1] at this
        exact this
      set mfin := setCell st.matrix c.1 c.2 (slice2 (getCell st.matrix c.1 c.2)) with hmfin
      refine ⟨{ st with matrix := mfin }, ((c.1 : Int), (c.2 : Int)), k + 1, ?_, rfl, rfl, rfl, rfl, rfl, rfl, ?_, ?_⟩
      · rw [revealFirst, if_neg h1, if_neg h2, if_neg hne]
      · rw [show ({ st with matrix := mfin } : MS).matrix = mfin from rfl, hmfin, hm]
        exact hpopsh.setCell _ _ _
      · intro i j hi hj
        rw [show ({ st with matrix := mfin } : MS).matrix = mfin from rfl, hmfin]
        rw [hm, getCell_setCell]
        by_cases hij : c.1 = i ∧ c.2 = j ∧
            c.1 < (populateMatrix (mkTypes sp emote) R C g0).length ∧
            c.2 < ((populateMatrix (mkTypes sp emote) R C g0).getD c.1 []).length
        · rw [if_pos hij]
          right
          rw [← hij.1, ← hij.2.1]
        · rw [if_neg hij]
          exact Or.inl rfl

/-- A completed fresh run of `start` past the validity gate: the output
is a real board (never `null`, no exception), the final grid is `R × C`,
exactly `M` of its cells hold Mine content, and every other cell holds a
number token (masked or revealed) with index at most 8. -/
theorem start_stages (R C M : Nat) (emote : String) (sp rfc zfc : Bool)
    (rt : RetType) (σ : Nat → Nat) (k fuel : Nat) (he : emoteOK emote)
    (hgate : ¬ (R * C ≤ M * 2)) {m2 : Matrix} {k2 : Nat}
    (hplant : plantLoop σ R C (mkTypes sp emote).mine fuel k M
      (List.replicate R (List.replicate C ((mkTypes sp emote).numbers.getD 0 ""))) =
      some (m2, k2)) :
    ∃ st3 r k3, start (mkMS R C M emote sp rfc zfc rt) σ k fuel =
        some (st3, Except.ok r, k3) ∧
      r ≠ StartResult.nullR ∧
      Shaped R C st3.matrix ∧
      countCells R C st3.matrix (mineHolds (mkTypes sp emote)) = M ∧
      (∀ i j, i < R → j < C →
        ¬ mineHolds (mkTypes sp emote) (getCell st3.matrix i j) →
        ∃ n, n ≤ 8 ∧
          (getCell st3.matrix i j = (mkTypes sp emote).numbers.getD n "" ∨
           getCell st3.matrix i j =
             slice2 ((mkTypes sp emote).numbers.getD n ""))) := by
  have hRC : 0 < R * C := by omega
  have hR : 0 < R := by
    rcases Nat.eq_zero_or_pos R with h | h
    · subst h
      simp at hRC
    · exact h
  have hC : 0 < C := by
    rcases Nat.eq_zero_or_pos C with h | h
    · subst h
      simp at hRC
    · exact h
  have hMRC : M < R * C := by omega
  have hmine_ne : (mkTypes sp emote).mine ≠ (mkTypes sp emote).numbers.getD 0 "" :=
    mine_ne_numbers sp he (by omega)
  -- what plantMines produced
  obtain ⟨hsh2, hcount2, hcells2⟩ := plantLoop_spec hR hC fuel k M _ m2 k2
    (replicate_shaped R C _) hplant
  have hcount0 : countCells R C
      (List.replicate R (List.replicate C ((mkTypes sp emote).numbers.getD 0 "")))
      (· = (mkTypes sp emote).mine) = 0 := by
    apply countCells_eq_zero
    intro i j hi hj
    rw [getCell_replicate hi hj]
    intro hcon
    exact hmine_ne hcon.symm
  rw [hcount0] at hcount2
  have hlayout : ∀ i j, i < R → j < C →
      getCell m2 i j = (mkTypes sp emote).mine ∨
      getCell m2 i j = (mkTypes sp emote).numbers.getD 0 "" := by
    intro i j hi hj
    rcases hcells2 i j hi hj with h | h
    · right
      rw [h, getCell_replicate hi hj]
    · left
      exact h
  -- the populated instance fed to revealFirst
  obtain ⟨st3, coords, k3, hrf, hr1, hr2, hr3, hr4, hr5, hr6, hrsh, hrcells⟩ :=
    revealFirst_spec sp emote R C m2 hsh2 hR hC he
      (populate { generateEmptyMatrix (mkMS R C M emote sp rfc zfc rt) with
        matrix := m2 }) σ k2 rfl rfl rfl rfl rfl
      (by
        rw [show (populate { generateEmptyMatrix (mkMS R C M emote sp rfc zfc rt) with
          matrix := m2 }).safeCells = populateSafe (mkTypes sp emote) m2 from rfl]
        exact populateSafe_ne_nil hsh2 hR hC (by omega) hMRC)
  -- the count of Mine-content cells in the final grid
  have hfinalcount : countCells R C st3.matrix (mineHolds (mkTypes sp emote)) = M := by
    rw [show M = countCells R C m2 (· = (mkTypes sp emote).mine) from by omega]
    apply countCells_congr2
    intro i j hi hj
    rcases hlayout i j hi hj with hm | hs
    · have hpop : getCell (populateMatrix (mkTypes sp emote) R C m2) i j =
          (mkTypes sp emote).mine := pop_cell_mine hsh2 hi hj hm
      constructor
      · intro _
        exact hm
      · intro _
        rcases hrcells i j hi hj with hc | hc
        · rw [hc, hpop]
          exact Or.inl rfl
        · rw [hc, hpop]
          exact Or.inr rfl
    · have hsafe : getCell m2 i j ≠ (mkTypes sp emote).mine := by
        rw [hs]
        exact fun hcon => hmine_ne hcon.symm
      have hk8 := specMineCount_le_8 (mkTypes sp emote).mine R C m2 i j
      have hpop : getCell (populateMatrix (mkTypes sp emote) R C m2) i j =
          (mkTypes sp emote).numbers.getD
            (specMineCount (mkTypes sp emote).mine R C m2 i j) "" :=
        pop_cell_safe hsh2 hi hj hsafe
      constructor
      · intro hmh
        exfalso
        rcases hrcells i j hi hj with hc | hc
        · rw [hc, hpop] at hmh
          exact not_mineHolds_numbers sp he (by omega) hmh
        · rw [hc, hpop] at hmh
          exact not_mineHolds_slice2_numbers sp he (by omega) hmh
      · intro hcon
        exact absurd hcon hsafe
  have hfinalnum : ∀ i j, i < R → j < C →
      ¬ mineHolds (mkTypes sp emote) (getCell st3.matrix i j) →
      ∃ n, n ≤ 8 ∧
        (getCell st3.matrix i j = (mkTypes sp emote).numbers.getD n "" ∨
         getCell st3.matrix i j =
           slice2 ((mkTypes sp emote).numbers.getD n "")) := by
    intro i j hi hj hnm
    rcases hlayout i j hi hj with hm | hs
    · exfalso
      apply hnm
      have hpop : getCell (populateMatrix (mkTypes sp emote) R C m2) i j =
          (mkTypes sp emote).mine := pop_cell_mine hsh2 hi hj hm
      rcases hrcells i j hi hj with hc | hc
      · rw [hc, hpop]
        exact Or.inl rfl
      · rw [hc, hpop]
        exact Or.inr rfl
    · have hsafe : getCell m2 i j ≠ (mkTypes sp emote).mine := by
        rw [hs]
        exact fun hcon => hmine_ne hcon.symm
      have hk8 := specMineCount_le_8 (mkTypes sp emote).mine R C m2 i j
      have hpop : getCell (populateMatrix (mkTypes sp emote) R C m2) i j =
          (mkTypes sp emote).numbers.getD
            (specMineCount (mkTypes sp emote).mine R C m2 i j) "" :=
        pop_cell_safe hsh2 hi hj hsafe
      refine ⟨specMineCount (mkTypes sp emote).mine R C m2 i j, hk8, ?_⟩
      rcases hrcells i j hi hj with hc | hc
      · rw [hc, hpop]
        exact Or.inl rfl
      · rw [hc, hpop]
        exact Or.inr rfl
  -- assemble, by the shape of the output switch
  have hstart0 : start (mkMS R C M emote sp rfc zfc rt) σ k fuel =
      match plantLoop σ R C (mkTypes sp emote).mine fuel k M
        (List.replicate R (List.replicate C ((mkTypes sp emote).numbers.getD 0 ""))) with
      | none => none
      | some (m2', k2') =>
        match revealFirst (populate { generateEmptyMatrix (mkMS R C M emote sp rfc zfc rt) with matrix := m2' }) σ k2' with
        | none => some (populate { generateEmptyMatrix (mkMS R C M emote sp rfc zfc rt) with matrix := m2' }, Except.error (), k2' + 1)
        | some (st3', _, k3') =>
          match st3'.returnType with
          | RetType.emoji => some (st3', Except.ok (.emoji (getTextRepresentation st3')), k3')
          | RetType.code => some (st3', Except.ok (.code ("```" ++ getTextRepresentation st3' ++ "```")), k3')
          | RetType.matrixT => some (st3', Except.ok (.matrixT st3'.matrix), k3') := by
    rw [start, if_neg (show ¬ ((mkMS R C M emote sp rfc zfc rt).rows *
      (mkMS R C M emote sp rfc zfc rt).columns ≤
      (mkMS R C M emote sp rfc zfc rt).mines * 2) from hgate)]
    rfl
  have hstart1 : start (mkMS R C M emote sp rfc zfc rt) σ k fuel =
      match revealFirst (populate { generateEmptyMatrix (mkMS R C M emote sp rfc zfc rt) with matrix := m2 }) σ k2 with
      | none => some (populate { generateEmptyMatrix (mkMS R C M emote sp rfc zfc rt) with matrix := m2 }, Except.error (), k2 + 1)
      | some (st3', _, k3') =>
        match st3'.returnType with
        | RetType.emoji => some (st3', Except.ok (.emoji (getTextRepresentation st3')), k3')
        | RetType.code => some (st3', Except.ok (.code ("```" ++ getTextRepresentation st3' ++ "```")), k3')
        | RetType.matrixT => some (st3', Except.ok (.matrixT st3'.matrix), k3') := by
    rw [hstart0, hplant]
  have hstart2 : start (mkMS R C M emote sp rfc zfc rt) σ k fuel =
      match st3.returnType with
      | RetType.emoji => some (st3, Except.ok (.emoji (getTextRepresentation st3)), k3)
      | RetType.code => some (st3, Except.ok (.code ("```" ++ getTextRepresentation st3 ++ "```")), k3)
      | RetType.matrixT => some (st3, Except.ok (.matrixT st3.matrix), k3) := by
    rw [hstart1, hrf]
  rcases hrt : st3.returnType with _ | _ | _
  · exact ⟨st3, .emoji (getTextRepresentation st3), k3,
      by rw [hstart2, hrt], by simp, hrsh, hfinalcount, hfinalnum⟩
  · exact ⟨st3, .code ("```" ++ getTextRepresentation st3 ++ "```"), k3,
      by rw [hstart2, hrt], by simp, hrsh, hfinalcount, hfinalnum⟩
  · exact ⟨st3, .matrixT st3.matrix, k3,
      by rw [hstart2, hrt], by simp, hrsh, hfinalcount, hfinalnum⟩

theorem start_gate_null (R C M : Nat) (emote : String) (sp rfc zfc : Bool)
    (rt : RetType) (σ : Nat → Nat) (k fuel : Nat) (hgate : R * C ≤ M * 2) :
    start (mkMS R C M emote sp rfc zfc rt) σ k fuel =
      some (mkMS R C M emote sp rfc zfc rt, Except.ok StartResult.nullR, k) := by
  rw [start, if_pos (show (mkMS R C M emote sp rfc zfc rt).rows *
    (mkMS R C M emote sp rfc zfc rt).columns ≤
    (mkMS R C M emote sp rfc zfc rt).mines * 2 from hgate)]

theorem start_unfold_gate (R C M : Nat) (emote : String) (sp rfc zfc : Bool)
    (rt : RetType) (σ : Nat → Nat) (k fuel : Nat) (hgate : ¬ (R * C ≤ M * 2)) :
    start (mkMS R C M emote sp rfc zfc rt) σ k fuel =
      match plantLoop σ R C (mkTypes sp emote).mine fuel k M
        (List.replicate R (List.replicate C ((mkTypes sp emote).numbers.getD 0 ""))) with
      | none => none
      | some (m2', k2') =>
        match revealFirst (populate { generateEmptyMatrix (mkMS R C M emote sp rfc zfc rt) with matrix := m2' }) σ k2' with
        | none => some (populate { generateEmptyMatrix (mkMS R C M emote sp rfc zfc rt) with matrix := m2' }, Except.error (), k2' + 1)
        | some (st3', _, k3') =>
          match st3'.returnType with
          | RetType.emoji => some (st3', Except.ok (.emoji (getTextRepresentation st3')), k3')
          | RetType.code => some (st3', Except.ok (.code ("```" ++ getTextRepresentation st3' ++ "```")), k3')
          | RetType.matrixT => some (st3', Except.ok (.matrixT st3'.matrix), k3') := by
  rw [start, if_neg (show ¬ ((mkMS R C M emote sp rfc zfc rt).rows *
    (mkMS R C M emote sp rfc zfc rt).columns ≤
    (mkMS R C M emote sp rfc zfc rt).mines * 2) from hgate)]
  rfl

theorem start_unfold_plant (R C M : Nat) (emote : String) (sp rfc zfc : Bool)
    (rt : RetType) (σ : Nat → Nat) (k fuel : Nat) (hgate : ¬ (R * C ≤ M * 2))
    (m2 : Matrix) (k2 : Nat)
    (hp : plantLoop σ R C (mkTypes sp emote).mine fuel k M
      (List.replicate R (List.replicate C
        ((mkTypes sp emote).numbers.getD 0 ""))) = some (m2, k2)) :
    start (mkMS R C M emote sp rfc zfc rt) σ k fuel =
      match revealFirst (populate { generateEmptyMatrix (mkMS R C M emote sp rfc zfc rt) with matrix := m2 }) σ k2 with
      | none => some (populate { generateEmptyMatrix (mkMS R C M emote sp rfc zfc rt) with matrix := m2 }, Except.error (), k2 + 1)
      | some (st3', _, k3') =>
        match st3'.returnType with
        | RetType.emoji => some (st3', Except.ok (.emoji (getTextRepresentation st3')), k3')
        | RetType.code => some (st3', Except.ok (.code ("```" ++ getTextRepresentation st3' ++ "```")), k3')
        | RetType.matrixT => some (st3', Except.ok (.matrixT st3'.matrix), k3') := by
  have h0 := start_unfold_gate R C M emote sp rfc zfc rt σ k fuel hgate
  rw [hp] at h0
  exact h0

/-- C1 counterexample: a generation run that completes with a non-null
result but whose final grid does not hold Mine content in exactly `mines`
cells.  With mine symbol `"one"` on a 1×3 board with one mine, the mine
is planted at (0,0), and `populate` then writes the count token for the
cell next to it — which is the very same string as the mine token — so
the completed board has two cells equal to the mine token although
`mines = 1`. -/
theorem c1_counterexample :
    (start (mkMS 1 3 1 "one" true false true .emoji) sigma0 0 5).map
      (fun p => p.2.1) =
      some (Except.ok (StartResult.emoji "|| :one: || || :one: || || :zero: ||")) ∧
    (start (mkMS 1 3 1 "one" true false true .emoji) sigma0 0 5).map
      (fun p => countCells 1 3 p.1.matrix (mineHolds (mkTypes true "one"))) =
      some 2 ∧
    (2 : Nat) ≠ 1 :=
  ⟨rfl, by decide, by decide⟩

/-- C1 (amended): for every fresh generator with rows `R ≥ 1`, columns
`C ≥ 1`, mine count `M`, and a mine symbol that is none of the nine
number names, whenever `start` completes with a non-null result the final
grid is `R × C`, holds Mine content in exactly `M` cells, and holds a
NeighborCount token with index in `[0, 8]` in every remaining cell. -/
theorem c1_amended (R C M : Nat) (emote : String) (sp rfc zfc : Bool)
    (rt : RetType) (σ : Nat → Nat) (k fuel : Nat) (he : emoteOK emote)
    (st' : MS) (res : StartResult) (k' : Nat)
    (hstart : start (mkMS R C M emote sp rfc zfc rt) σ k fuel =
      some (st', Except.ok res, k'))
    (hres : res ≠ StartResult.nullR) :
    Shaped R C st'.matrix ∧
    countCells R C st'.matrix (mineHolds (mkTypes sp emote)) = M ∧
    (∀ i j, i < R → j < C →
      ¬ mineHolds (mkTypes sp emote) (getCell st'.matrix i j) →
      ∃ n, n ≤ 8 ∧
        (getCell st'.matrix i j = (mkTypes sp emote).numbers.getD n "" ∨
         getCell st'.matrix i j =
           slice2 ((mkTypes sp emote).numbers.getD n ""))) := by
  by_cases hgate : R * C ≤ M * 2
  · rw [start_gate_null R C M emote sp rfc zfc rt σ k fuel hgate] at hstart
    simp only [Option.some.injEq, Prod.mk.injEq, Except.ok.injEq] at hstart
    exact absurd hstart.2.1.symm hres
  · have h0 := start_unfold_gate R C M emote sp rfc zfc rt σ k fuel hgate
    cases hp : plantLoop σ R C (mkTypes sp emote).mine fuel k M
        (List.replicate R (List.replicate C
          ((mkTypes sp emote).numbers.getD 0 ""))) with
    | none =>
      rw [hp] at h0
      have h1 : start (mkMS R C M emote sp rfc zfc rt) σ k fuel = none := h0
      rw [h1] at hstart
      cases hstart
    | some p =>
      obtain ⟨m2, k2⟩ := p
      obtain ⟨st3, r, k3, heq, _, hsh3, hcnt3, hnum3⟩ :=
        start_stages R C M emote sp rfc zfc rt σ k fuel he hgate hp
      rw [heq] at hstart
      simp only [Option.some.injEq, Prod.mk.injEq, Except.ok.injEq] at hstart
      obtain ⟨h1, _, _⟩ := hstart
      subst h1
      exact ⟨hsh3, hcnt3, hnum3⟩

/-- C5 counterexample: a configuration past the validity gate on which
`start` does not return a board.  With mine symbol `"zero"`, the empty
grid is made entirely of "mine" tokens, so with `mines = 0` the registry
ends empty and, reveal-first being enabled, `revealFirst` indexes
`undefined` and throws instead of returning a board, although
`1 * 1 > 0 * 2`. -/
theorem c5_counterexample :
    ¬ (1 * 1 ≤ 0 * 2) ∧
    (start (mkMS 1 1 0 "zero" true true true .emoji) sigma0 0 5).map
      (fun p => p.2.1) = some (Except.error ()) :=
  ⟨by decide, rfl⟩

/-- C5 (amended): `start` returns the `null` sentinel exactly when
`rows*columns ≤ mines*2` — in that case immediately and without any
exception; past the gate it never returns `null`, and it returns a real
board (of the shape the output selector asks for) whenever the mine
symbol is none of the nine number names and mine placement completes. -/
theorem c5_amended (R C M : Nat) (emote : String) (sp rfc zfc : Bool)
    (rt : RetType) (σ : Nat → Nat) (k fuel : Nat) :
    (R * C ≤ M * 2 →
      start (mkMS R C M emote sp rfc zfc rt) σ k fuel =
        some (mkMS R C M emote sp rfc zfc rt, Except.ok StartResult.nullR, k)) ∧
    (¬ (R * C ≤ M * 2) →
      ∀ st' r k', start (mkMS R C M emote sp rfc zfc rt) σ k fuel =
        some (st', r, k') → r ≠ Except.ok StartResult.nullR) ∧
    (¬ (R * C ≤ M * 2) → emoteOK emote →
      ∀ m2 k2, plantLoop σ R C (mkTypes sp emote).mine fuel k M
        (List.replicate R (List.replicate C
          ((mkTypes sp emote).numbers.getD 0 ""))) = some (m2, k2) →
      ∃ st' r k', start (mkMS R C M emote sp rfc zfc rt) σ k fuel =
        some (st', Except.ok r, k') ∧ r ≠ StartResult.nullR) := by
  refine ⟨?_, ?_, ?_⟩
  · intro hgate
    exact start_gate_null R C M emote sp rfc zfc rt σ k fuel hgate
  · intro hgate st' r k' hstart
    have h0 := start_unfold_gate R C M emote sp rfc zfc rt σ k fuel hgate
    cases hp : plantLoop σ R C (mkTypes sp emote).mine fuel k M
        (List.replicate R (List.replicate C
          ((mkTypes sp emote).numbers.getD 0 ""))) with
    | none =>
      rw [hp] at h0
      have h1 : start (mkMS R C M emote sp rfc zfc rt) σ k fuel = none := h0
      rw [h1] at hstart
      cases hstart
    | some p =>
      obtain ⟨m2, k2⟩ := p
      have h1 := start_unfold_plant R C M emote sp rfc zfc rt σ k fuel hgate m2 k2 hp
      cases hrf2 : revealFirst (populate
          { generateEmptyMatrix (mkMS R C M emote sp rfc zfc rt) with
            matrix := m2 }) σ k2 with
      | none =>
        rw [hrf2] at h1
        have h2 : start (mkMS R C M emote sp rfc zfc rt) σ k fuel =
            some (populate { generateEmptyMatrix (mkMS R C M emote sp rfc zfc rt)
              with matrix := m2 }, Except.error (), k2 + 1) := h1
        rw [h2] at hstart
        simp only [Option.some.injEq, Prod.mk.injEq] at hstart
        rw [← hstart.2.1]
        simp
      | some p3 =>
        obtain ⟨st3, c3, k3⟩ := p3
        rw [hrf2] at h1
        have h2 : some (st', r, k') =
            match st3.returnType with
            | RetType.emoji => some (st3, Except.ok (StartResult.emoji (getTextRepresentation st3)), k3)
            | RetType.code => some (st3, Except.ok (StartResult.code ("```" ++ getTextRepresentation st3 ++ "```")), k3)
            | RetType.matrixT => some (st3, Except.ok (StartResult.matrixT st3.matrix), k3) :=
          hstart.symm.trans h1
        rcases hrt : st3.returnType with _ | _ | _
        · rw [hrt] at h2
          have h3 : some (st', r, k') =
              some (st3, Except.ok (StartResult.emoji (getTextRepresentation st3)), k3) := h2
          simp only [Option.some.injEq, Prod.mk.injEq] at h3
          rw [h3.2.1]
          simp
        · rw [hrt] at h2
          have h3 : some (st', r, k') =
              some (st3, Except.ok (StartResult.code ("```" ++ getTextRepresentation st3 ++ "```")), k3) := h2
          simp only [Option.some.injEq, Prod.mk.injEq] at h3
          rw [h3.2.1]
          simp
        · rw [hrt] at h2
          have h3 : some (st', r, k') =
              some (st3, Except.ok (StartResult.matrixT st3.matrix), k3) := h2
          simp only [Option.some.injEq, Prod.mk.injEq] at h3
          rw [h3.2.1]
          simp
  · intro hgate he m2 k2 hp
    obtain ⟨st3, r, k3, heq, hrne, _, _, _⟩ :=
      start_stages R C M emote sp rfc zfc rt σ k fuel he hgate hp
    exact ⟨st3, r, k3, heq, hrne⟩

theorem c1_amended_witness :
    emoteOK "boom" ∧
    start (mkMS 1 3 1 "boom" true false true .emoji) sigma0 0 5 =
      some (c1fixSt,
        Except.ok (StartResult.emoji "|| :boom: || || :one: || || :zero: ||"), 2) ∧
    StartResult.emoji "|| :boom: || || :one: || || :zero: ||" ≠ StartResult.nullR ∧
    (Shaped 1 3 c1fixSt.matrix ∧
     countCells 1 3 c1fixSt.matrix (mineHolds (mkTypes true "boom")) = 1 ∧
     (∀ i j, i < 1 → j < 3 →
       ¬ mineHolds (mkTypes true "boom") (getCell c1fixSt.matrix i j) →
       ∃ n, n ≤ 8 ∧
         (getCell c1fixSt.matrix i j = (mkTypes true "boom").numbers.getD n "" ∨
          getCell c1fixSt.matrix i j =
            slice2 ((mkTypes true "boom").numbers.getD n "")))) := by
  have he : emoteOK "boom" := by unfold emoteOK; decide
  have hs : start (mkMS 1 3 1 "boom" true false true .emoji) sigma0 0 5 =
      some (c1fixSt,
        Except.ok (StartResult.emoji "|| :boom: || || :one: || || :zero: ||"), 2) := by
    rfl
  have hn : StartResult.emoji "|| :boom: || || :one: || || :zero: ||" ≠
      StartResult.nullR := by decide
  exact ⟨he, hs, hn, c1_amended 1 3 1 "boom" true false true .emoji sigma0 0 5 he
    c1fixSt (StartResult.emoji "|| :boom: || || :one: || || :zero: ||") 2 hs hn⟩

theorem c5_amended_witness :
    ((1 : Nat) * 1 ≤ 1 * 2 ∧
      start (mkMS 1 1 1 "boom" true false true .emoji) sigma0 0 5 =
        some (mkMS 1 1 1 "boom" true false true .emoji,
          Except.ok StartResult.nullR, 0)) ∧
    (¬ ((1 : Nat) * 1 ≤ 0 * 2) ∧
      start (mkMS 1 1 0 "zero" true true true .emoji) sigma0 0 5 =
        some (c5fixSt, Except.error (), 1) ∧
      (Except.error () : Except Unit StartResult) ≠
        Except.ok StartResult.nullR) ∧
    (¬ ((1 : Nat) * 3 ≤ 1 * 2) ∧ emoteOK "boom" ∧
      plantLoop sigma0 1 3 (mkTypes true "boom").mine 5 0 1
        (List.replicate 1 (List.replicate 3
          ((mkTypes true "boom").numbers.getD 0 ""))) =
        some ([[spoilerize true "boom", spoilerize true "zero",
          spoilerize true "zero"]], 2) ∧
      ∃ st' r k', start (mkMS 1 3 1 "boom" true false true .emoji) sigma0 0 5 =
        some (st', Except.ok r, k') ∧ r ≠ StartResult.nullR) := by
  have hgate3 : ¬ ((1 : Nat) * 3 ≤ 1 * 2) := by decide
  have he : emoteOK "boom" := by unfold emoteOK; decide
  have hp : plantLoop sigma0 1 3 (mkTypes true "boom").mine 5 0 1
      (List.replicate 1 (List.replicate 3
        ((mkTypes true "boom").numbers.getD 0 ""))) =
      some ([[spoilerize true "boom", spoilerize true "zero",
        spoilerize true "zero"]], 2) := by rfl
  have hgate0 : ¬ ((1 : Nat) * 1 ≤ 0 * 2) := by decide
  have hs0 : start (mkMS 1 1 0 "zero" true true true .emoji) sigma0 0 5 =
      some (c5fixSt, Except.error (), 1) := by rfl
  refine ⟨⟨by decide,
      (c5_amended 1 1 1 "boom" true false true .emoji sigma0 0 5).1 (by decide)⟩,
    ⟨hgate0, hs0,
      (c5_amended 1 1 0 "zero" true true true .emoji sigma0 0 5).2.1 hgate0
        c5fixSt (Except.error ()) 1 hs0⟩,
    ⟨hgate3, he, hp,
      (c5_amended 1 3 1 "boom" true false true .emoji sigma0 0 5).2.2 hgate3 he
        _ 2 hp⟩⟩

end Minesweeper
